import Mathlib

/-!
Verification of the pynbody units module (`pynbody/units.py`).

The Python classes `UnitBase` / `NoUnit` / `IrreducibleUnit` / `NamedUnit` /
`CompositeUnit` are embedded as one inductive type.  A composite unit's
parallel `_bases` / `_powers` lists are embedded as one list of pairs (the
source always traverses them zipped).  The floating-point `_scale` and the
numeric substitution values are embedded as exact rationals; the float
literals of the source are read at their decimal value.  Python exceptions
are embedded as an error type carried in `Except`: `float.__pow__` applied to
a fractional exponent generally leaves the exact-rational fragment, and the
embedding marks that case with the distinguished error `PyErr.inexact`
(the concrete computations of the claims stay inside the exact fragment).

Object identity: the registry guarantees one object per unit name, and the
source compares bases either by identity (`is`, `set`) or by `==`; in this
value embedding both are rendered as structural equality.
-/

/-- Rational equality decided on the numerator/denominator representation.
(The auto-derived decision procedure for `Rat` recurses unarily in the value
and cannot evaluate the large scales occurring here.) -/
instance (priority := high) fastRatDecEq : DecidableEq ℚ := fun a b =>
  decidable_of_iff (a.num = b.num ∧ a.den = b.den)
    ⟨fun h => Rat.ext h.1 h.2, fun h => by rw [h]; exact ⟨rfl, rfl⟩⟩

instance (priority := high) fastExceptDecEq {ε α : Type} [DecidableEq ε] [DecidableEq α] :
    DecidableEq (Except ε α) := fun a b =>
  match a, b with
  | .ok x, .ok y =>
    if h : x = y then isTrue (by rw [h]) else isFalse (by intro hh; cases hh; exact h rfl)
  | .ok _, .error _ => isFalse (by intro h; cases h)
  | .error _, .ok _ => isFalse (by intro h; cases h)
  | .error x, .error y =>
    if h : x = y then isTrue (by rw [h]) else isFalse (by intro hh; cases hh; exact h rfl)

/-- Python exception values raised by the units module. -/
inductive PyErr where
  | unitsException (msg : String)
  | attributeError (msg : String)
  | keyError (msg : String)
  | valueError (msg : String)
  | zeroDivisionError
  | inexact
deriving DecidableEq

/-- The unit variants: `NoUnit`, `IrreducibleUnit(name)`, `NamedUnit(name, represents)`
and `CompositeUnit(scale, bases, powers)` with the base/power lists zipped. -/
inductive UnitT where
  | noUnit : UnitT
  | irreducible (name : String) : UnitT
  | named (name : String) (represents : UnitT) : UnitT
  | composite (scale : ℚ) (items : List (UnitT × ℚ)) : UnitT

mutual

def UnitT.decEqU : (a b : UnitT) → Decidable (a = b)
  | .noUnit, .noUnit => isTrue rfl
  | .noUnit, .irreducible _ => isFalse (by intro h; cases h)
  | .noUnit, .named _ _ => isFalse (by intro h; cases h)
  | .noUnit, .composite _ _ => isFalse (by intro h; cases h)
  | .irreducible _, .noUnit => isFalse (by intro h; cases h)
  | .irreducible a, .irreducible b =>
      match decEq a b with
      | isTrue h => isTrue (by rw [h])
      | isFalse h => isFalse (by intro hh; cases hh; exact h rfl)
  | .irreducible _, .named _ _ => isFalse (by intro h; cases h)
  | .irreducible _, .composite _ _ => isFalse (by intro h; cases h)
  | .named _ _, .noUnit => isFalse (by intro h; cases h)
  | .named _ _, .irreducible _ => isFalse (by intro h; cases h)
  | .named a r, .named b t =>
      match decEq a b, UnitT.decEqU r t with
      | isTrue h1, isTrue h2 => isTrue (by rw [h1, h2])
      | isFalse h1, _ => isFalse (by intro hh; cases hh; exact h1 rfl)
      | _, isFalse h2 => isFalse (by intro hh; cases hh; exact h2 rfl)
  | .named _ _, .composite _ _ => isFalse (by intro h; cases h)
  | .composite _ _, .noUnit => isFalse (by intro h; cases h)
  | .composite _ _, .irreducible _ => isFalse (by intro h; cases h)
  | .composite _ _, .named _ _ => isFalse (by intro h; cases h)
  | .composite s i, .composite t j =>
      match decEq s t, UnitT.decEqItems i j with
      | isTrue h1, isTrue h2 => isTrue (by rw [h1, h2])
      | isFalse h1, _ => isFalse (by intro hh; cases hh; exact h1 rfl)
      | _, isFalse h2 => isFalse (by intro hh; cases hh; exact h2 rfl)

def UnitT.decEqItems : (a b : List (UnitT × ℚ)) → Decidable (a = b)
  | [], [] => isTrue rfl
  | [], _ :: _ => isFalse (by intro h; cases h)
  | _ :: _, [] => isFalse (by intro h; cases h)
  | (u, p) :: xs, (v, q) :: ys =>
      match UnitT.decEqU u v, decEq p q, UnitT.decEqItems xs ys with
      | isTrue h1, isTrue h2, isTrue h3 => isTrue (by rw [h1, h2, h3])
      | isFalse h1, _, _ => isFalse (by intro hh; cases hh; exact h1 rfl)
      | _, isFalse h2, _ => isFalse (by intro hh; cases hh; exact h2 rfl)
      | _, _, isFalse h3 => isFalse (by intro hh; cases hh; exact h3 rfl)

end

instance : DecidableEq UnitT := UnitT.decEqU

/-- Exact embedding of Python `x ** p` on a float base `x` and int/`Fraction`
exponent `p`.  Integer exponents are exact; `1 ** p` and `0 ** p` are exact for
any `p`; `0 ** p` with `p < 0` raises `ZeroDivisionError` and a negative base
with a fractional exponent raises `ValueError`, as in Python 2.  The remaining
case (fractional exponent on a generic base) produces an irrational float and
is marked `inexact`. -/
def fpow (x p : ℚ) : Except PyErr ℚ :=
  if x = 1 then .ok 1
  else if p.den = 1 then
    if x = 0 ∧ p.num < 0 then .error .zeroDivisionError else .ok (x ^ p.num)
  else
    if x = 0 then (if p < 0 then .error .zeroDivisionError else .ok 0)
    else if x < 0 then .error (.valueError "negative number cannot be raised to a fractional power")
    else .error .inexact

/-- Order used by `_gather`: `(base, power)` entries by descending power
(the source sorts `(power, base)` pairs with a comparator on the power only). -/
def descPow (x y : UnitT × ℚ) : Prop := y.2 ≤ x.2

instance : DecidableRel descPow := fun x y => inferInstanceAs (Decidable (y.2 ≤ x.2))

instance : IsTotal (UnitT × ℚ) descPow := ⟨fun a b => le_total b.2 a.2⟩

instance : IsTrans (UnitT × ℚ) descPow := ⟨fun _ _ _ h1 h2 => le_trans h2 h1⟩

/-- `CompositeUnit._gather`: collect the distinct bases, sum the powers of each
base's occurrences, drop bases whose summed power is zero, and sort the
remaining entries by descending power.  (The source materialises the distinct
bases with `set(...)`, whose order is unspecified; the embedding uses
`List.dedup` as one deterministic realisation of it.) -/
def gatherC (items : List (UnitT × ℚ)) : List (UnitT × ℚ) :=
  let bases := (items.map Prod.fst).dedup
  let pairs := bases.map fun b => (b, ((items.filter fun bp => bp.1 = b).map Prod.snd).sum)
  (pairs.filter fun bp => bp.2 ≠ 0).insertionSort descPow

/-- The second `b.irrep()` that `_expand(True)` performs after substituting a
`NamedUnit` base by `represents.irrep()`: such a value is an image of `irrep`,
on which `_expand(True)` changes nothing (its bases are never composite and a
named base it retains has a non-composite irrep), so `.irrep()` there is
`copy` followed by `_gather`; the non-composite case would hit `b._scale`
below and raise `AttributeError`. -/
def gatherOnly : UnitT → Except PyErr (ℚ × List (UnitT × ℚ))
  | .composite s2 it2 => .ok (s2, gatherC it2)
  | _ => .error (.attributeError "_scale")

mutual

/-- `irrep()`: `NoUnit` and `IrreducibleUnit` return themselves (the latter as
a one-entry composite), `NamedUnit` resolves `represents.irrep()`, and
`CompositeUnit` copies itself, runs `_expand(True)` and `_gather`. -/
def irrepU : UnitT → Except PyErr UnitT
  | .noUnit => .ok .noUnit
  | .irreducible n => .ok (.composite 1 [(.irreducible n, 1)])
  | .named _ r => irrepU r
  | .composite s items => do
      let (m, kept, app) ← expandItems true items
      .ok (.composite (s * m) (gatherC (kept ++ app)))
termination_by structural u => u

/-- One traversal of `CompositeUnit._expand(expand_to_irrep)` over the zipped
`(base, power)` entries.  Returns the factor multiplied onto `self._scale`,
the entries kept in place, and the entries appended at the end; the caller
concatenates `kept ++ app`, matching the source's in-place deletes and
appends.  A base that is (or, with `expand_to_irrep`, resolves to) a
composite contributes `b._scale ** p` to the scale and its sub-entries with
powers multiplied by `p`; any other base is kept unchanged (when
`represents.irrep()` is not composite the original named base stays, since
the source only rebinds the loop-local `b`). -/
def expandItems (irr : Bool) : List (UnitT × ℚ) → Except PyErr (ℚ × List (UnitT × ℚ) × List (UnitT × ℚ))
  | [] => .ok (1, [], [])
  | (b, p) :: rest =>
    match b with
    | .named nm r =>
      if irr then do
        let b1 ← irrepU r
        match b1 with
        | .composite s2 it2 => do
            let (s3, it3) ← gatherOnly (.composite s2 it2)
            let f ← fpow s3 p
            let (m, kept, app) ← expandItems irr rest
            .ok (f * m, kept, (it3.map fun bp => (bp.1, bp.2 * p)) ++ app)
        | _ => do
            let (m, kept, app) ← expandItems irr rest
            .ok (m, (UnitT.named nm r, p) :: kept, app)
      else do
        let (m, kept, app) ← expandItems irr rest
        .ok (m, (UnitT.named nm r, p) :: kept, app)
    | .composite s2 it2 =>
      if irr then do
        let b2 ← irrepU (.composite s2 it2)
        match b2 with
        | .composite s3 it3 => do
            let f ← fpow s3 p
            let (m, kept, app) ← expandItems irr rest
            .ok (f * m, kept, (it3.map fun bp => (bp.1, bp.2 * p)) ++ app)
        | _ => .error (.attributeError "_scale")
      else do
        let f ← fpow s2 p
        let (m, kept, app) ← expandItems irr rest
        .ok (f * m, kept, (it2.map fun bp => (bp.1, bp.2 * p)) ++ app)
    | other => do
        let (m, kept, app) ← expandItems irr rest
        .ok (m, (other, p) :: kept, app)
termination_by structural l => l

end

/-- `simplify()`: `_expand()` then `_gather()` on a composite (mutating the
receiver, whose final state is the returned value); every other variant
returns itself unchanged. -/
def simplifyU : UnitT → Except PyErr UnitT
  | .composite s items => do
      let (m, kept, app) ← expandItems false items
      .ok (.composite (s * m) (gatherC (kept ++ app)))
  | u => .ok u

/-- `CompositeUnit.irrep()` on the scale/items fields: `_expand(True)` then
`_gather` on a copy. -/
def irrepC (s : ℚ) (items : List (UnitT × ℚ)) : Except PyErr (ℚ × List (UnitT × ℚ)) := do
  let (m, kept, app) ← expandItems true items
  .ok (s * m, gatherC (kept ++ app))

/-- `UnitBase.__pow__` (overridden by `NoUnit` to return itself): wrap the
receiver in a one-entry composite and simplify.  A tuple argument becomes a
`Fraction` first; the embedding takes the exponent as a rational directly. -/
def powU (u : UnitT) (p : ℚ) : Except PyErr UnitT :=
  match u with
  | .noUnit => .ok .noUnit
  | _ => simplifyU (.composite 1 [(u, p)])

/-- `UnitBase.__mul__` on a unit operand (overridden by `NoUnit`, and any
operand carrying `_no_unit` absorbs to `NoUnit`). -/
def mulU (a b : UnitT) : Except PyErr UnitT :=
  match a, b with
  | .noUnit, _ => .ok .noUnit
  | _, .noUnit => .ok .noUnit
  | _, _ => simplifyU (.composite 1 [(a, 1), (b, 1)])

/-- `UnitBase.__div__` on a unit operand (overridden by `NoUnit`; an operand
carrying `_no_unit` absorbs to `NoUnit`). -/
def divU (a b : UnitT) : Except PyErr UnitT :=
  match a, b with
  | .noUnit, _ => .ok .noUnit
  | _, .noUnit => .ok .noUnit
  | _, _ => simplifyU (.composite 1 [(a, 1), (b, -1)])

/-- `UnitBase.__rmul__` / scalar multiplication `c * u` (overridden by `NoUnit`). -/
def rmulU (c : ℚ) (u : UnitT) : Except PyErr UnitT :=
  match u with
  | .noUnit => .ok .noUnit
  | _ => simplifyU (.composite c [(u, 1)])

/-- `UnitBase.__rdiv__` / `c / u` (overridden by `NoUnit`). -/
def rdivU (c : ℚ) (u : UnitT) : Except PyErr UnitT :=
  match u with
  | .noUnit => .ok .noUnit
  | _ => simplifyU (.composite c [(u, -1)])

/-- `str()` of a unit as far as `dimensionless_constant` consults it: the
name of an irreducible or named unit.  (The composite and `NoUnit` renderings
involve float formatting and are never substitution keys; they are left
unnamed here, making the dictionary lookup fail as it does in the source.) -/
def strU : UnitT → Option String
  | .irreducible n => some n
  | .named n _ => some n
  | _ => none

/-- The loop of `CompositeUnit.dimensionless_constant`: starting from the
irrep's scale, multiply `substitutions[str(xb)] ** xp` for each remaining
entry, raising "Not dimensionless" at the first base whose name is not a key. -/
def dcFold (subs : String → Option ℚ) : ℚ → List (UnitT × ℚ) → Except PyErr ℚ
  | c, [] => .ok c
  | c, (xb, xp) :: rest =>
    match strU xb >>= subs with
    | some v => do
        let f ← fpow v xp
        dcFold subs (c * f) rest
    | none => .error (.unitsException "Not dimensionless")

/-- `CompositeUnit.dimensionless_constant(**substitutions)`.  The method is
defined only on `CompositeUnit`; on any other variant the attribute lookup
raises `AttributeError`. -/
def dimensionless_constant (subs : String → Option ℚ) : UnitT → Except PyErr ℚ
  | .composite s items => do
      let (xs, xit) ← irrepC s items
      dcFold subs xs xit
  | _ => .error (.attributeError "dimensionless_constant")

/-- Empty keyword substitutions. -/
def noSubs : String → Option ℚ := fun _ => none

/-- `ratio(other, **substitutions)`: `NoUnit.ratio` answers 1 against `NoUnit`
and "Unknown units" otherwise; `UnitBase.ratio` computes
`(self/other).dimensionless_constant(**substitutions)`, re-raising any
`UnitsException` as "Not convertible" and letting other exceptions propagate. -/
def ratioU (self other : UnitT) (subs : String → Option ℚ) : Except PyErr ℚ :=
  match self with
  | .noUnit =>
    match other with
    | .noUnit => .ok 1
    | _ => .error (.unitsException "Unknown units")
  | _ =>
    match (do
      let q ← divU self other
      dimensionless_constant subs q) with
    | .ok c => .ok c
    | .error (.unitsException _) => .error (.unitsException "Not convertible")
    | .error e => .error e

/-- `UnitBase.__eq__`: `ratio(other) == 1.`, with a `UnitsException` swallowed
into `False`; any other exception propagates. -/
def eqU (a b : UnitT) : Except PyErr Bool :=
  match ratioU a b noSubs with
  | .ok c => .ok (decide (c = 1))
  | .error (.unitsException _) => .ok false
  | .error e => .error e

/-- `UnitBase.__lt__`: `ratio(other) < 1.`, every exception propagating. -/
def ltU (a b : UnitT) : Except PyErr Bool :=
  match ratioU a b noSubs with
  | .ok c => .ok (decide (c < 1))
  | .error e => .error e

/-- `UnitBase.__gt__`: `ratio(other) > 1.`. -/
def gtU (a b : UnitT) : Except PyErr Bool :=
  match ratioU a b noSubs with
  | .ok c => .ok (decide (1 < c))
  | .error e => .error e

/-- `UnitBase.__le__`: `ratio(other) <= 1.`. -/
def leU (a b : UnitT) : Except PyErr Bool :=
  match ratioU a b noSubs with
  | .ok c => .ok (decide (c ≤ 1))
  | .error e => .error e

/-- `UnitBase.__ge__`: `ratio(other) >= 1.`. -/
def geU (a b : UnitT) : Except PyErr Bool :=
  match ratioU a b noSubs with
  | .ok c => .ok (decide (1 ≤ c))
  | .error e => .error e

/-- `is_dimensionless()`: `UnitBase` answers `False`, `NoUnit` answers `True`,
and `CompositeUnit` answers `True` when the irrep's power list is empty but
falls off the end of the function — returning Python's `None`, embedded as
`none` — otherwise. -/
def is_dimensionless : UnitT → Except PyErr (Option Bool)
  | .noUnit => .ok (some true)
  | .composite s items => do
      let (_, xit) ← irrepC s items
      .ok (if xit = [] then some true else none)
  | _ => .ok (some false)

/-- `CompositeUnit.copy()`: a shallow copy referencing the same base objects
but with fresh lists; on values the copy is the value itself. -/
def copyU : UnitT → UnitT := fun u => u

/-- A method call `u.simplify()` seen as (result, receiver after the call):
`simplify` canonicalises the receiver in place and returns it. -/
def simplifyCall (u : UnitT) : Except PyErr (UnitT × UnitT) := do
  let v ← simplifyU u
  .ok (v, v)

/-- A method call `u.irrep()` seen as (result, receiver after the call): on a
composite, `x = self.copy()` is expanded and gathered while the receiver —
whose entry lists the shallow copy does not share — is left as it was. -/
def irrepCall (u : UnitT) : Except PyErr (UnitT × UnitT) := do
  let x ← irrepU (copyU u)
  .ok (x, u)

mutual

/-- No occurrence of the `NoUnit` sentinel inside the value: `NoUnit` never
appears as a composite's base or behind a `NamedUnit` in units built by the
parser or the operators, which absorb it before constructing composites. -/
def noUnitFree : UnitT → Bool
  | .noUnit => false
  | .irreducible _ => true
  | .named _ r => noUnitFree r
  | .composite _ items => noUnitFreeItems items

def noUnitFreeItems : List (UnitT × ℚ) → Bool
  | [] => true
  | bp :: rest => noUnitFree bp.1 && noUnitFreeItems rest

end

/-- Split a character list at the first occurrence of `c`. -/
def splitAtChar (c : Char) : List Char → Option (List Char × List Char)
  | [] => none
  | x :: xs =>
    if x = c then some ([], xs)
    else (splitAtChar c xs).map fun pr => (x :: pr.1, pr.2)

/-- Numeric value of a digit list. -/
def digitsVal (cs : List Char) : ℕ := cs.foldl (fun a c => 10 * a + (c.toNat - 48)) 0

/-- Leading sign of a numeric literal: `(negative?, rest)`. -/
def readSign : List Char → Bool × List Char
  | c :: t => if c = '-' then (true, t) else if c = '+' then (false, t) else (false, c :: t)
  | [] => (false, [])

/-- Embedding of Python `float(s)` on the decimal and scientific literal forms
(`[+-]digits[.digits][(e|E)[+-]digits]`); identifiers fail, as `float` does. -/
def parseFloat? (s : String) : Option ℚ :=
  let (neg, cs) := readSign s.toList
  let (mant, expPart) :=
    match splitAtChar 'e' cs with
    | some pr => (pr.1, some pr.2)
    | none =>
      match splitAtChar 'E' cs with
      | some pr => (pr.1, some pr.2)
      | none => (cs, none)
  let (ip, fp) :=
    match splitAtChar '.' mant with
    | some pr => pr
    | none => (mant, [])
  if ip.all Char.isDigit ∧ fp.all Char.isDigit ∧ (ip ≠ [] ∨ fp ≠ []) then
    let base : ℚ := (digitsVal ip : ℚ) + (digitsVal fp : ℚ) / (10 : ℚ) ^ fp.length
    let signed : ℚ := if neg then -base else base
    match expPart with
    | none => some signed
    | some ec =>
      let (eneg, ed) := readSign ec
      if ed ≠ [] ∧ ed.all Char.isDigit then
        let e : ℤ := if eneg then -(digitsVal ed : ℤ) else (digitsVal ed : ℤ)
        some (signed * (10 : ℚ) ^ e)
      else none
  else none

/-- Embedding of Python `Fraction(s)` on the forms the unit grammar uses:
an integer or `numerator/denominator`.  (`Fraction("n/0")` raises
`ZeroDivisionError` in the source; it is folded into the failure case here.) -/
def parseFraction? (s : String) : Option ℚ :=
  match s.splitOn "/" with
  | [a] => a.toInt?.map fun n => (n : ℚ)
  | [a, b] => do
    let n ← a.toInt?
    let d ← b.toInt?
    if d = 0 then none else some ((n : ℚ) / (d : ℚ))
  | _ => none

/-- The units module registry `_registry` after start-up.  Each named unit's
`represents` is the composite value the module-level expression computes; a
construction exception would abort the import, and none occurs. -/
def orNoUnit : Except PyErr UnitT → UnitT
  | .ok u => u
  | .error _ => .noUnit

def u_m : UnitT := .irreducible "m"
def u_s : UnitT := .irreducible "s"
def u_kg : UnitT := .irreducible "kg"
def u_K : UnitT := .irreducible "K"
def u_a : UnitT := .irreducible "a"
def u_h : UnitT := .irreducible "h"
def u_yr : UnitT := .named "yr" (orNoUnit (rmulU (mkRat 31556926 1) u_s))
def u_kyr : UnitT := .named "kyr" (orNoUnit (rmulU (mkRat 1000 1) u_yr))
def u_Myr : UnitT := .named "Myr" (orNoUnit (rmulU (mkRat 1000 1) u_kyr))
def u_Gyr : UnitT := .named "Gyr" (orNoUnit (rmulU (mkRat 1000 1) u_Myr))
def u_cm : UnitT := .named "cm" (orNoUnit (rmulU (mkRat 1 100) u_m))
def u_km : UnitT := .named "km" (orNoUnit (rmulU (mkRat 1000 1) u_m))
def u_au : UnitT := .named "au" (orNoUnit (rmulU (mkRat 149598000000 1) u_m))
def u_pc : UnitT := .named "pc" (orNoUnit (rmulU (mkRat 30856802500000000 1) u_m))
def u_kpc : UnitT := .named "kpc" (orNoUnit (rmulU (mkRat 1000 1) u_pc))
def u_Mpc : UnitT := .named "Mpc" (orNoUnit (rmulU (mkRat 1000 1) u_kpc))
def u_Gpc : UnitT := .named "Gpc" (orNoUnit (rmulU (mkRat 1000 1) u_Mpc))
def u_Msol : UnitT := .named "Msol" (orNoUnit (rmulU (mkRat 1988920000000000000000000000000 1) u_kg))
def u_g : UnitT := .named "g" (orNoUnit (rmulU (mkRat 1 1000) u_kg))
def u_m_p : UnitT := .named "m_p" (orNoUnit (rmulU (mkRat 167262158 100000000000000000000000000000000000) u_kg))
def u_m_e : UnitT := .named "m_e" (orNoUnit (rmulU (mkRat 910938188 1000000000000000000000000000000000000000) u_kg))
def u_N : UnitT := .named "N" (orNoUnit (do
  let t1 ← mulU u_kg u_m
  let t2 ← powU u_s (-2)
  mulU t1 t2))
def u_J : UnitT := .named "J" (orNoUnit (mulU u_N u_m))
def u_erg : UnitT := .named "erg" (orNoUnit (rmulU (mkRat 1 10000000) u_J))
def u_eV : UnitT := .named "eV" (orNoUnit (rmulU (mkRat 160217646 1000000000000000000000000000) u_J))
def u_keV : UnitT := .named "keV" (orNoUnit (rmulU (mkRat 1000 1) u_eV))
def u_MeV : UnitT := .named "MeV" (orNoUnit (rmulU (mkRat 1000 1) u_keV))
def u_Pa : UnitT := .named "Pa" (orNoUnit (divU u_J u_m))
def u_dyn : UnitT := .named "dyn" (orNoUnit (divU u_erg u_cm))
def u_one_plus_z : UnitT := .named "(1+z)" (orNoUnit (rdivU 1 u_a))

def registryList : List (String × UnitT) :=
  [("m", u_m), ("s", u_s), ("kg", u_kg), ("K", u_K), ("a", u_a), ("h", u_h),
   ("yr", u_yr), ("kyr", u_kyr), ("Myr", u_Myr), ("Gyr", u_Gyr),
   ("cm", u_cm), ("km", u_km), ("au", u_au), ("pc", u_pc), ("kpc", u_kpc),
   ("Mpc", u_Mpc), ("Gpc", u_Gpc), ("Msol", u_Msol), ("g", u_g),
   ("m_p", u_m_p), ("m_e", u_m_e), ("N", u_N), ("J", u_J), ("erg", u_erg),
   ("eV", u_eV), ("keV", u_keV), ("MeV", u_MeV), ("Pa", u_Pa), ("dyn", u_dyn),
   ("(1+z)", u_one_plus_z)]

/-- `_registry[name]` lookup. -/
def registryFind (n : String) : Option UnitT :=
  (registryList.find? fun e => e.1 == n).map Prod.snd

/-- One token of the `Unit(s)` factory's loop.  A token holding `**` (or else
`^`) splits into name and exponent: an unregistered name raises
`ValueError("Unknown unit <name>")` and a malformed exponent raises the
`ValueError` from `Fraction`; a bare token is looked up directly, an
unregistered name raising the bare `KeyError` of `_registry[com]`.
(`Fraction`'s reduction of a denominator-1 result to `int` changes only the
Python type, not the rational value.) -/
def parseToken (tok : String) : Except PyErr (UnitT × ℚ) :=
  let starParts := tok.splitOn "**"
  let caretParts := tok.splitOn "^"
  if starParts.length > 1 ∨ caretParts.length > 1 then
    match (if starParts.length > 1 then starParts else caretParts) with
    | nm :: ex :: _ =>
      match registryFind nm with
      | none => .error (.valueError ("Unknown unit " ++ nm))
      | some u =>
        match parseFraction? ex with
        | none => .error (.valueError "invalid literal for Fraction")
        | some p => .ok (u, p)
    | _ => .error (.valueError "invalid literal for Fraction")
  else
    match registryFind tok with
    | none => .error (.keyError tok)
    | some u => .ok (u, 1)

/-- The `Unit(s)` factory on a string: split on whitespace, read an optional
leading float as the scale (`1.0` otherwise, the token not being consumed on
failure), process the remaining tokens, and build the — unsimplified —
composite. -/
def parseUnit (s : String) : Except PyErr UnitT :=
  let toks := (s.split Char.isWhitespace).filter fun t => t ≠ ""
  match toks with
  | [] => .ok (.composite 1 [])
  | t :: rest =>
    match parseFloat? t with
    | some sc => do
        let ps ← rest.mapM parseToken
        .ok (.composite sc ps)
    | none => do
        let ps ← toks.mapM parseToken
        .ok (.composite 1 ps)

/-- `CompositeUnit._power_of(base)`: the power stored for `base`, or 0 when
absent (membership via the registry-backed equality, rendered structurally). -/
def power_of (items : List (UnitT × ℚ)) (base : UnitT) : ℚ :=
  ((items.find? fun bp => bp.1 == base).map Prod.snd).getD 0

/-- Dot product of two equal-length rational vectors (`np.dot`). -/
def dotL (u v : List ℚ) : ℚ := ((u.zip v).map fun pr => pr.1 * pr.2).sum

/-- Matrix-vector product: each row dotted with the vector. -/
def matVec (m : List (List ℚ)) (v : List ℚ) : List ℚ := m.map (dotL v)

/-- Transpose of a matrix whose rows have length `k`. -/
def matTrK (k : ℕ) (m : List (List ℚ)) : List (List ℚ) :=
  (List.range k).map fun j => m.map fun row => row.getD j 0

/-- First row with a nonzero entry in column `c`, together with the other
rows in their order. -/
def findPivot : List (List ℚ) → ℕ → Option (List ℚ × List (List ℚ))
  | [], _ => none
  | r :: rs, c =>
    if r.getD c 0 ≠ 0 then some (r, rs)
    else (findPivot rs c).map fun pr => (pr.1, r :: pr.2)

/-- One Gauss-Jordan step on augmented rows: bring a pivot into position `c`,
normalise it, and eliminate column `c` from every other row; `none` when no
pivot exists. -/
def gaussStep (c : ℕ) (rows : List (List ℚ)) : Option (List (List ℚ)) :=
  let pre := rows.take c
  let post := rows.drop c
  match findPivot post c with
  | none => none
  | some (p, rest) =>
    let pv := p.getD c 0
    let pn := p.map fun x => x / pv
    let elim := fun (r : List ℚ) =>
      let f := r.getD c 0
      (r.zip pn).map fun q => q.1 - f * q.2
    some (pre.map elim ++ pn :: rest.map elim)

/-- Modelled from the spec: `util.rational_matrix_inv`, the exact rational
matrix inversion used by `dimensional_project`, is not part of the sources
under examination (only its call site is).  Per the spec it performs
Gauss-Jordan elimination with exact fraction pivots, and a singular input —
no pivot available in some column — raises `LinAlgError` (here `none`). -/
def rational_matrix_inv (m : List (List ℚ)) : Option (List (List ℚ)) :=
  let n := m.length
  let aug := m.enum.map fun pr => pr.2 ++ ((List.range n).map fun j => if j = pr.1 then (1 : ℚ) else 0)
  ((List.range n).foldlM (fun rows c => gaussStep c rows) aug).map fun rows =>
    rows.map fun r => r.drop n

/-- The item lists of the irreps of the basis units; `Unit(x)` parses each
basis entry, then `irrep()` is taken (always a composite here). -/
def basisIrreps (basis : List String) : Except PyErr (List (List (UnitT × ℚ))) :=
  basis.mapM fun x => do
    let t ← parseUnit x
    let ti ← irrepU t
    match ti with
    | .composite _ it2 => .ok it2
    | _ => .error (.attributeError "_bases")

/-- The row labels of the projection matrix: the set of irreducible bases
appearing in the unit's irrep or any basis vector's irrep (a Python `set`,
realised deterministically by `dedup`). -/
def dpBases (meIt : List (UnitT × ℚ)) (vecs : List (List (UnitT × ℚ))) : List UnitT :=
  ((meIt.map Prod.fst) ++ (vecs.map fun v => v.map Prod.fst).flatten).dedup

/-- The N×K matrix `M` of `dimensional_project`: entry (base, vec) is the
basis vector's power of that base. -/
def dpMatrix (bases : List UnitT) (vecs : List (List (UnitT × ℚ))) : List (List ℚ) :=
  bases.map fun b => vecs.map fun v => power_of v b

/-- `CompositeUnit.dimensional_project(basis_units)`: build `M` and the power
vector `v` over the union of dimensions, solve the normal equations
`d = (MᵀM)⁻¹ Mᵀ v` in exact rational arithmetic, report a singular `MᵀM` as a
linearly dependent basis, check `M·d = v` exactly and report a failure as a
non-spanning basis, and otherwise return `d`. -/
def dimensional_project (u : UnitT) (basis : List String) : Except PyErr (List ℚ) :=
  match u with
  | .composite s items => do
    let vecs ← basisIrreps basis
    let me ← irrepC s items
    let bases := dpBases me.2 vecs
    let matrix := dpMatrix bases vecs
    let mt := matTrK vecs.length matrix
    let mtm := mt.map fun r => mt.map (dotL r)
    match rational_matrix_inv mtm with
    | none => .error (.unitsException "Basis units are not linearly independent")
    | some minv =>
      let myPowers := bases.map (power_of me.2)
      let candidate := matVec minv (matVec mt myPowers)
      if matVec matrix candidate = myPowers then .ok candidate
      else .error (.unitsException "Basis units do not span dimensions of specified unit")
  | _ => .error (.attributeError "dimensional_project")

/-- The contribution of a single `(base, power)` entry to `_expand`: the
factor multiplied onto the scale, the entries kept in place, and the entries
appended.  `expandItems` is this step sequenced over the list (shown in
`expandItems_cons_eq`). -/
def stepOne (irr : Bool) : UnitT × ℚ → Except PyErr (ℚ × List (UnitT × ℚ) × List (UnitT × ℚ))
  | (b, p) =>
    match b with
    | .named nm r =>
      if irr then do
        let b1 ← irrepU r
        match b1 with
        | .composite s2 it2 => do
            let (s3, it3) ← gatherOnly (.composite s2 it2)
            let f ← fpow s3 p
            .ok (f, [], it3.map fun bp => (bp.1, bp.2 * p))
        | _ => .ok (1, [(UnitT.named nm r, p)], [])
      else .ok (1, [(UnitT.named nm r, p)], [])
    | .composite s2 it2 =>
      if irr then do
        let b2 ← irrepU (.composite s2 it2)
        match b2 with
        | .composite s3 it3 => do
            let f ← fpow s3 p
            .ok (f, [], it3.map fun bp => (bp.1, bp.2 * p))
        | _ => .error (.attributeError "_scale")
      else do
        let f ← fpow s2 p
        .ok (f, [], it2.map fun bp => (bp.1, bp.2 * p))
    | other => .ok (1, [(other, p)], [])

/-- Entry list with every power negated: the item list of the reciprocal. -/
def negItems (l : List (UnitT × ℚ)) : List (UnitT × ℚ) := l.map fun bp => (bp.1, -bp.2)

/-- Every base of the entry list is an `IrreducibleUnit`. -/
def pureIrrepItems (l : List (UnitT × ℚ)) : Prop := ∀ bp ∈ l, ∃ n, bp.1 = UnitT.irreducible n

/-- Whether the unit is a `CompositeUnit`. -/
def isComp : UnitT → Bool
  | .composite _ _ => true
  | _ => false

/-- The substitutions dictionary `{"a": v}`. -/
def subsA (v : ℚ) : String → Option ℚ := fun n => if n = "a" then some v else none

/-! Helper lemmas about `_gather`'s canonical form. -/

theorem gatherC_eq_sort (items : List (UnitT × ℚ)) :
    gatherC items = ((((items.map Prod.fst).dedup).map
        (fun b => (b, ((items.filter fun bp => bp.1 = b).map Prod.snd).sum))).filter
      fun bp => bp.2 ≠ 0).insertionSort descPow := rfl

theorem gatherC_sorted (items : List (UnitT × ℚ)) : List.Sorted descPow (gatherC items) := by
  rw [gatherC_eq_sort]
  exact List.sorted_insertionSort descPow _

theorem gatherC_perm_filter (items : List (UnitT × ℚ)) :
    List.Perm (gatherC items) ((((items.map Prod.fst).dedup).map
        (fun b => (b, ((items.filter fun bp => bp.1 = b).map Prod.snd).sum))).filter
      fun bp => bp.2 ≠ 0) := by
  rw [gatherC_eq_sort]
  exact List.perm_insertionSort descPow _

theorem gatherC_powers_ne_zero (items : List (UnitT × ℚ)) :
    ∀ bp ∈ gatherC items, bp.2 ≠ 0 := by
  intro bp hbp
  have := (gatherC_perm_filter items).mem_iff.mp hbp
  have := List.of_mem_filter this
  simpa using this

theorem gatherC_fst_nodup (items : List (UnitT × ℚ)) :
    ((gatherC items).map Prod.fst).Nodup := by
  have h2 := (gatherC_perm_filter items).map Prod.fst
  rw [h2.nodup_iff]
  apply List.Nodup.sublist ((List.filter_sublist _).map Prod.fst)
  rw [List.map_map]
  simpa [Function.comp_def] using (items.map Prod.fst).nodup_dedup

theorem except_bind_ok {ε α β : Type} {e : Except ε α} {f : α → Except ε β} {b : β}
    (h : (e >>= f) = .ok b) : ∃ a, e = .ok a ∧ f a = .ok b := by
  cases e with
  | ok a => exact ⟨a, rfl, h⟩
  | error err => exact Except.noConfusion h

theorem simplifyU_composite_ok {s : ℚ} {items : List (UnitT × ℚ)} {u : UnitT}
    (h : simplifyU (.composite s items) = .ok u) :
    ∃ m kept app, expandItems false items = .ok (m, kept, app) ∧
      u = .composite (s * m) (gatherC (kept ++ app)) := by
  obtain ⟨a, ha, hf⟩ := except_bind_ok h
  obtain ⟨m, kept, app⟩ := a
  exact ⟨m, kept, app, ha, (Except.ok.inj hf).symm⟩

/-- C3: after `simplify()` a composite's entries are canonical: each base
appears at most once, no stored power is zero, and the entries are sorted by
descending power. -/
theorem c3_simplify_canonical (s : ℚ) (items : List (UnitT × ℚ)) (u : UnitT)
    (h : simplifyU (.composite s items) = .ok u) :
    ∃ s2 items2, u = .composite s2 items2 ∧
      (items2.map Prod.fst).Nodup ∧ (∀ bp ∈ items2, bp.2 ≠ 0) ∧
      List.Sorted descPow items2 := by
  obtain ⟨m, kept, app, _, hu⟩ := simplifyU_composite_ok h
  exact ⟨s * m, gatherC (kept ++ app), hu, gatherC_fst_nodup _,
    gatherC_powers_ne_zero _, gatherC_sorted _⟩

/-- Witness for C3 at `CompositeUnit(1, [m, m, s], [1, 2, -1]).simplify()`. -/
theorem c3_witness :
    ∃ s2 items2, UnitT.composite 1 [(u_m, 3), (u_s, -1)] = .composite s2 items2 ∧
      (items2.map Prod.fst).Nodup ∧ (∀ bp ∈ items2, bp.2 ≠ 0) ∧
      List.Sorted descPow items2 :=
  c3_simplify_canonical 1 [(u_m, 1), (u_m, 2), (u_s, -1)] _ (by with_unfolding_all decide)

/-- C7 (code bug): `CompositeUnit.is_dimensionless` falls off the end of the
function when the irrep retains bases, so `Unit("m").is_dimensionless()`
returns Python `None` — not the boolean `False` the spec's
`is_dimensionless() -> bool` contract promises.  The `True` branch, the
`NoUnit` override and the `UnitBase` default do return booleans. -/
theorem c7_is_dimensionless_returns_none :
    (do let u ← parseUnit "m"; is_dimensionless u) = .ok none ∧
    (do let u ← parseUnit "m"; let q ← divU u u; is_dimensionless q) = .ok (some true) ∧
    is_dimensionless .noUnit = .ok (some true) ∧
    is_dimensionless u_m = .ok (some false) := by
  refine ⟨?_, ?_, ?_, ?_⟩ <;> with_unfolding_all decide

/-- C8 counterexample: parsing a bare unknown unit token raises the anonymous
`KeyError` of the registry lookup, not the "unknown unit" member of the
units-error family the claim asserts. -/
theorem c8_counterexample :
    parseUnit "florbs" = .error (.keyError "florbs") ∧
    ∀ msg, (Except.error (PyErr.keyError "florbs") : Except PyErr UnitT) ≠
      .error (.unitsException msg) := by
  refine ⟨by with_unfolding_all decide, ?_⟩
  intro msg h
  cases Except.error.inj h

/-- C8 (amended): an unknown unit name makes parsing fail, but not with the
units error: a token with a `**` or `^` exponent suffix raises
`ValueError("Unknown unit <name>")`, while a bare token raises the `KeyError`
of `_registry[com]` itself. -/
theorem c8_unknown_unit_errors :
    (∀ tok : String, (tok.splitOn "**").length ≤ 1 → (tok.splitOn "^").length ≤ 1 →
      registryFind tok = none → parseToken tok = .error (.keyError tok)) ∧
    (∀ tok nm ex rest2, tok.splitOn "**" = nm :: ex :: rest2 →
      registryFind nm = none → parseToken tok = .error (.valueError ("Unknown unit " ++ nm))) ∧
    parseUnit "florbs" = .error (.keyError "florbs") ∧
    parseUnit "florbs**2" = .error (.valueError "Unknown unit florbs") ∧
    parseUnit "florbs^2" = .error (.valueError "Unknown unit florbs") ∧
    parseUnit "3 kpc florbs" = .error (.keyError "florbs") := by
  refine ⟨?_, ?_, ?_, ?_, ?_, ?_⟩
  · intro tok h1 h2 h3
    have hc : ¬ ((tok.splitOn "**").length > 1 ∨ (tok.splitOn "^").length > 1) := by
      push_neg
      omega
    simp only [parseToken, if_neg hc, h3]
  · intro tok nm ex rest2 hsp h3
    have hl : (nm :: ex :: rest2).length > 1 := by simp
    simp only [parseToken, hsp]
    rw [if_pos (Or.inl hl), if_pos hl]
    simp [h3]
  · with_unfolding_all decide
  · with_unfolding_all decide
  · with_unfolding_all decide
  · with_unfolding_all decide

/-- Witness for C8's amended token-level statements at concrete tokens. -/
theorem c8_witness :
    parseToken "blucks" = .error (.keyError "blucks") ∧
    parseToken "blucks**2" = .error (.valueError "Unknown unit blucks") :=
  ⟨c8_unknown_unit_errors.1 "blucks" (by with_unfolding_all decide)
      (by with_unfolding_all decide) (by with_unfolding_all decide),
    c8_unknown_unit_errors.2.1 "blucks**2" "blucks" "2" []
      (by with_unfolding_all decide) (by with_unfolding_all decide)⟩

/-- C9: when `ratio` raises a units error, `==` swallows it and answers
`False`, while each ordering comparison propagates the error to the caller. -/
theorem c9_eq_swallows_ordering_propagates (a b : UnitT) (msg : String)
    (h : ratioU a b noSubs = .error (.unitsException msg)) :
    eqU a b = .ok false ∧ ltU a b = .error (.unitsException msg) ∧
    gtU a b = .error (.unitsException msg) ∧ leU a b = .error (.unitsException msg) ∧
    geU a b = .error (.unitsException msg) := by
  refine ⟨?_, ?_, ?_, ?_, ?_⟩ <;> simp only [eqU, ltU, gtU, leU, geU, h]

/-- Witness for C9 at the incompatible pair `m`, `kg`. -/
theorem c9_witness :
    eqU u_m u_kg = .ok false ∧ ltU u_m u_kg = .error (.unitsException "Not convertible") ∧
    gtU u_m u_kg = .error (.unitsException "Not convertible") ∧
    leU u_m u_kg = .error (.unitsException "Not convertible") ∧
    geU u_m u_kg = .error (.unitsException "Not convertible") :=
  c9_eq_swallows_ordering_propagates u_m u_kg "Not convertible" (by with_unfolding_all decide)

/-- C10: dividing a non-`NoUnit` unit by `no_unit` yields a `NoUnit`, whose
missing `dimensionless_constant` attribute makes `ratio` — and hence `==` and
the ordering comparisons, which do not catch `AttributeError` — raise
`AttributeError`; conversely `no_unit.ratio(u)` raises the units error
"Unknown units" for any other unit, and `no_unit.ratio(no_unit)` returns 1. -/
theorem c10_nounit_ratio (u : UnitT) (h : u ≠ .noUnit) :
    divU u .noUnit = .ok .noUnit ∧
    ratioU u .noUnit noSubs = .error (.attributeError "dimensionless_constant") ∧
    eqU u .noUnit = .error (.attributeError "dimensionless_constant") ∧
    ltU u .noUnit = .error (.attributeError "dimensionless_constant") ∧
    gtU u .noUnit = .error (.attributeError "dimensionless_constant") ∧
    leU u .noUnit = .error (.attributeError "dimensionless_constant") ∧
    geU u .noUnit = .error (.attributeError "dimensionless_constant") ∧
    ratioU .noUnit u noSubs = .error (.unitsException "Unknown units") ∧
    ratioU .noUnit .noUnit noSubs = .ok 1 := by
  cases u with
  | noUnit => exact absurd rfl h
  | irreducible n => exact ⟨rfl, rfl, rfl, rfl, rfl, rfl, rfl, rfl, rfl⟩
  | named n r => exact ⟨rfl, rfl, rfl, rfl, rfl, rfl, rfl, rfl, rfl⟩
  | composite s items => exact ⟨rfl, rfl, rfl, rfl, rfl, rfl, rfl, rfl, rfl⟩

/-- Witness for C10 at `u = m`. -/
theorem c10_witness :
    divU u_m .noUnit = .ok .noUnit ∧
    ratioU u_m .noUnit noSubs = .error (.attributeError "dimensionless_constant") ∧
    eqU u_m .noUnit = .error (.attributeError "dimensionless_constant") ∧
    ltU u_m .noUnit = .error (.attributeError "dimensionless_constant") ∧
    gtU u_m .noUnit = .error (.attributeError "dimensionless_constant") ∧
    leU u_m .noUnit = .error (.attributeError "dimensionless_constant") ∧
    geU u_m .noUnit = .error (.attributeError "dimensionless_constant") ∧
    ratioU .noUnit u_m noSubs = .error (.unitsException "Unknown units") ∧
    ratioU .noUnit .noUnit noSubs = .ok 1 :=
  c10_nounit_ratio u_m (by with_unfolding_all decide)

theorem dc_ok_inversion {subs : String → Option ℚ} {s : ℚ} {items : List (UnitT × ℚ)} {c : ℚ}
    (h : dimensionless_constant subs (.composite s items) = .ok c) :
    ∃ xs xit, irrepC s items = .ok (xs, xit) ∧ dcFold subs xs xit = .ok c := by
  obtain ⟨a, ha, hf⟩ := except_bind_ok h
  obtain ⟨xs, xit⟩ := a
  exact ⟨xs, xit, ha, hf⟩

theorem dcFold_cons_found (subs : String → Option ℚ) (c : ℚ) {xb : UnitT} {v : ℚ}
    (hx : strU xb >>= subs = some v) (xp : ℚ) (rest : List (UnitT × ℚ)) :
    dcFold subs c ((xb, xp) :: rest) =
      (do
        let f ← fpow v xp
        dcFold subs (c * f) rest) := by
  conv_lhs => rw [dcFold]
  rw [hx]

theorem dcFold_cons_missing (subs : String → Option ℚ) (c : ℚ) {xb : UnitT}
    (hx : strU xb >>= subs = none) (xp : ℚ) (rest : List (UnitT × ℚ)) :
    dcFold subs c ((xb, xp) :: rest) = .error (.unitsException "Not dimensionless") := by
  conv_lhs => rw [dcFold]
  rw [hx]

theorem dcFold_ok_coverage {subs : String → Option ℚ} :
    ∀ {l : List (UnitT × ℚ)} {c r : ℚ}, dcFold subs c l = .ok r →
      ∀ bp ∈ l, ∃ n v, strU bp.1 = some n ∧ subs n = some v := by
  intro l
  induction l with
  | nil => intro c r _ bp hbp; cases hbp
  | cons hd tl ih =>
    intro c r h bp hbp
    obtain ⟨xb, xp⟩ := hd
    cases hlook : strU xb >>= subs with
    | none => rw [dcFold_cons_missing subs c hlook] at h; cases h
    | some v =>
      rw [dcFold_cons_found subs c hlook] at h
      obtain ⟨f, hf, hrest⟩ := except_bind_ok h
      rcases List.mem_cons.mp hbp with heq | hmem
      · subst heq
        cases hstr : strU xb with
        | none => rw [hstr] at hlook; cases hlook
        | some n => rw [hstr] at hlook; exact ⟨n, v, rfl, hlook⟩
      · exact ih hrest bp hmem

theorem dcFold_value {subs : String → Option ℚ} :
    ∀ {l : List (UnitT × ℚ)} {fs : List ℚ},
      List.Forall₂ (fun (bp : UnitT × ℚ) (f : ℚ) => ∃ n v, strU bp.1 = some n ∧
        subs n = some v ∧ fpow v bp.2 = .ok f) l fs →
      ∀ c, dcFold subs c l = .ok (c * fs.prod) := by
  intro l fs h
  induction h with
  | nil => intro c; simp [dcFold]
  | @cons bp f l2 fs2 hhd htl ih =>
    intro c
    obtain ⟨n, v, hn, hv, hf⟩ := hhd
    obtain ⟨xb, xp⟩ := bp
    have hx : strU xb >>= subs = some v := by
      rw [show strU (xb, xp).1 = strU xb from rfl] at hn
      rw [hn]
      exact hv
    rw [dcFold_cons_found subs c hx]
    rw [show fpow v (xb, xp).2 = fpow v xp from rfl] at hf
    rw [hf]
    show dcFold subs (c * f) l2 = .ok (c * (f :: fs2).prod)
    rw [List.prod_cons, ← mul_assoc]
    exact ih (c * f)

theorem dcFold_missing_name {subs : String → Option ℚ} :
    ∀ {l1 : List (UnitT × ℚ)} {fs : List ℚ},
      List.Forall₂ (fun (bp : UnitT × ℚ) (f : ℚ) => ∃ n v, strU bp.1 = some n ∧
        subs n = some v ∧ fpow v bp.2 = .ok f) l1 fs →
      ∀ (xb : UnitT) (xp : ℚ) l2 c, (strU xb >>= subs) = none →
        dcFold subs c (l1 ++ (xb, xp) :: l2) = .error (.unitsException "Not dimensionless") := by
  intro l1 fs h
  induction h with
  | nil =>
    intro xb xp l2 c hmiss
    rw [List.nil_append]
    exact dcFold_cons_missing subs c hmiss xp l2
  | @cons bp f l2a fs2 hhd htl ih =>
    intro xb xp l2 c hmiss
    obtain ⟨n, v, hn, hv, hf⟩ := hhd
    obtain ⟨yb, yp⟩ := bp
    have hx : strU yb >>= subs = some v := by
      rw [show strU (yb, yp).1 = strU yb from rfl] at hn
      rw [hn]
      exact hv
    rw [List.cons_append, dcFold_cons_found subs c hx]
    rw [show fpow v (yb, yp).2 = fpow v yp from rfl] at hf
    rw [hf]
    show dcFold subs (c * f) (l2a ++ (xb, xp) :: l2) = _
    exact ih xb xp l2 (c * f) hmiss

theorem ratioU_eq_wrap (a b : UnitT) (subs : String → Option ℚ) (ha : a ≠ .noUnit) :
    ratioU a b subs =
      match (do
        let q ← divU a b
        dimensionless_constant subs q) with
      | .ok c => .ok c
      | .error (.unitsException _) => .error (.unitsException "Not convertible")
      | .error e => .error e := by
  cases a with
  | noUnit => exact absurd rfl ha
  | irreducible n => rfl
  | named n r => rfl
  | composite s it => rfl

/-- C2 (amended): `dimensionless_constant` starts from the irrep's scale and
multiplies `substitutions[name] ** power` over the remaining entries, so a
success implies every remaining base's name is a key of the substitutions, and
named+raisable coverage yields exactly `irrep scale × Π value^power`; a base
whose name is missing (all earlier factors raisable) raises "Not
dimensionless" — but full coverage alone does not guarantee success, since a
substituted value that cannot be raised to the power (0 to a negative power)
raises the arithmetic error instead.  `ratio` computes
`(self/other).dimensionless_constant` and re-raises a units failure as "Not
convertible"; `Unit("kpc a").ratio(Unit("kpc"))` raises it and
`Unit("kpc a").ratio(Unit("kpc"), a=0.5)` returns 0.5. -/
theorem c2_dimensionless_constant_characterisation :
    (∀ (subs : String → Option ℚ) (s : ℚ) items c,
      dimensionless_constant subs (.composite s items) = .ok c →
      ∃ xs xit, irrepC s items = .ok (xs, xit) ∧
        ∀ bp ∈ xit, ∃ n v, strU bp.1 = some n ∧ subs n = some v) ∧
    (∀ (subs : String → Option ℚ) (s : ℚ) items xs xit fs,
      irrepC s items = .ok (xs, xit) →
      List.Forall₂ (fun (bp : UnitT × ℚ) (f : ℚ) => ∃ n v, strU bp.1 = some n ∧
        subs n = some v ∧ fpow v bp.2 = .ok f) xit fs →
      dimensionless_constant subs (.composite s items) = .ok (xs * fs.prod)) ∧
    (∀ (subs : String → Option ℚ) (s : ℚ) items xs l1 xb xp l2 fs,
      irrepC s items = .ok (xs, l1 ++ (xb, xp) :: l2) →
      List.Forall₂ (fun (bp : UnitT × ℚ) (f : ℚ) => ∃ n v, strU bp.1 = some n ∧
        subs n = some v ∧ fpow v bp.2 = .ok f) l1 fs →
      (strU xb >>= subs) = none →
      dimensionless_constant subs (.composite s items) =
        .error (.unitsException "Not dimensionless")) ∧
    (∀ a b subs c, a ≠ .noUnit →
      (do
        let q ← divU a b
        dimensionless_constant subs q) = .ok c → ratioU a b subs = .ok c) ∧
    (∀ a b subs m, a ≠ .noUnit →
      (do
        let q ← divU a b
        dimensionless_constant subs q) = .error (.unitsException m) →
      ratioU a b subs = .error (.unitsException "Not convertible")) ∧
    (do
      let u ← parseUnit "kpc a"
      let v ← parseUnit "kpc"
      ratioU u v noSubs) = .error (.unitsException "Not convertible") ∧
    (do
      let u ← parseUnit "kpc a"
      let v ← parseUnit "kpc"
      ratioU u v (subsA (mkRat 1 2))) = .ok (mkRat 1 2) := by
  refine ⟨?_, ?_, ?_, ?_, ?_, ?_, ?_⟩
  · intro subs s items c h
    obtain ⟨xs, xit, hirr, hfold⟩ := dc_ok_inversion h
    exact ⟨xs, xit, hirr, dcFold_ok_coverage hfold⟩
  · intro subs s items xs xit fs hirr hfs
    show (irrepC s items >>= fun d => match d with | (xs, xit) => dcFold subs xs xit) = _
    rw [hirr]
    show dcFold subs xs xit = _
    exact dcFold_value hfs xs
  · intro subs s items xs l1 xb xp l2 fs hirr hfs hmiss
    show (irrepC s items >>= fun d => match d with | (xs, xit) => dcFold subs xs xit) = _
    rw [hirr]
    show dcFold subs xs (l1 ++ (xb, xp) :: l2) = _
    exact dcFold_missing_name hfs xb xp l2 xs hmiss
  · intro a b subs c ha h
    rw [ratioU_eq_wrap a b subs ha, h]
  · intro a b subs m ha h
    rw [ratioU_eq_wrap a b subs ha, h]
  · with_unfolding_all decide
  · with_unfolding_all decide

/-- Witness for C2's amended statements at `kpc a` against `kpc` with
`a = 1/2`, and the success-value form at `Unit("a")` with `a = 1/2`. -/
theorem c2_witness :
    dimensionless_constant (subsA (mkRat 1 2)) (.composite 1 [(u_a, 1)]) =
      .ok (1 * [mkRat 1 2].prod) ∧
    ratioU u_m u_kg noSubs = .error (.unitsException "Not convertible") :=
  ⟨c2_dimensionless_constant_characterisation.2.1 (subsA (mkRat 1 2)) 1 [(u_a, 1)] 1
      [(u_a, 1)] [mkRat 1 2] (by with_unfolding_all decide)
      (List.Forall₂.cons ⟨"a", mkRat 1 2, by with_unfolding_all decide,
        by with_unfolding_all decide, by with_unfolding_all decide⟩ List.Forall₂.nil),
    c2_dimensionless_constant_characterisation.2.2.2.2.1 u_m u_kg noSubs "Not dimensionless"
      (by with_unfolding_all decide) (by with_unfolding_all decide)⟩

/-- C2 counterexample: with `U = a**-1` and substitutions `{a: 0}` every
remaining base's name is a key of the substitutions, yet
`dimensionless_constant` does not succeed — `0 ** -1` raises
`ZeroDivisionError` — refuting the claimed "succeeds if and only if". -/
theorem c2_counterexample :
    powU u_a (-1) = .ok (.composite 1 [(u_a, -1)]) ∧
    irrepC 1 [(u_a, -1)] = .ok (1, [(u_a, -1)]) ∧
    (∀ bp ∈ [(u_a, (-1 : ℚ))], ∃ n v, strU bp.1 = some n ∧ subsA 0 n = some v) ∧
    dimensionless_constant (subsA 0) (.composite 1 [(u_a, -1)]) = .error .zeroDivisionError := by
  refine ⟨by with_unfolding_all decide, by with_unfolding_all decide, ?_,
    by with_unfolding_all decide⟩
  intro bp hbp
  rcases List.mem_cons.mp hbp with heq | h2
  · subst heq
    exact ⟨"a", 0, by with_unfolding_all decide, by with_unfolding_all decide⟩
  · cases h2

theorem expandItems_false_id : ∀ l : List (UnitT × ℚ), (∀ bp ∈ l, isComp bp.1 = false) →
    expandItems false l = .ok (1, l, []) := by
  intro l
  induction l with
  | nil => intro _; rfl
  | cons hd tl ih =>
    intro h
    obtain ⟨b, p⟩ := hd
    have htl := ih fun bp hbp => h bp (List.mem_cons_of_mem _ hbp)
    cases b with
    | noUnit =>
      show (do
        let (m, kept, app) ← expandItems false tl
        Except.ok (m, (UnitT.noUnit, p) :: kept, app)) = _
      rw [htl]
      rfl
    | irreducible n =>
      show (do
        let (m, kept, app) ← expandItems false tl
        Except.ok (m, (UnitT.irreducible n, p) :: kept, app)) = _
      rw [htl]
      rfl
    | named nm r =>
      show (do
        let (m, kept, app) ← expandItems false tl
        Except.ok (m, (UnitT.named nm r, p) :: kept, app)) = _
      rw [htl]
      rfl
    | composite s2 it2 =>
      have := h (UnitT.composite s2 it2, p) (List.mem_cons_self _ _)
      simp [isComp] at this

theorem filter_singleton_of_nodup :
    ∀ l : List (UnitT × ℚ), (l.map Prod.fst).Nodup →
      ∀ b p, (b, p) ∈ l → (l.filter fun bp => bp.1 = b) = [(b, p)] := by
  intro l
  induction l with
  | nil => intro _ b p hmem; cases hmem
  | cons hd tl ih =>
    intro hnod b p hmem
    obtain ⟨c, q⟩ := hd
    rw [List.map_cons, List.nodup_cons] at hnod
    rcases List.mem_cons.mp hmem with heq | hmem2
    · cases heq
      rw [List.filter_cons_of_pos (by simp)]
      have : (tl.filter fun bp => bp.1 = b) = [] := by
        rw [List.filter_eq_nil_iff]
        intro bp hbp
        simp only [decide_eq_true_eq]
        intro hc
        have hmm : bp.1 ∈ tl.map Prod.fst := List.mem_map_of_mem Prod.fst hbp
        rw [hc] at hmm
        exact hnod.1 hmm
      rw [this]
    · have hne : c ≠ b := by
        intro hc
        have hmm : b ∈ tl.map Prod.fst := List.mem_map_of_mem Prod.fst hmem2
        rw [← hc] at hmm
        exact hnod.1 hmm
      rw [List.filter_cons_of_neg (by simpa using hne)]
      exact ih hnod.2 b p hmem2

theorem gatherC_of_canonical (l : List (UnitT × ℚ)) (hnod : (l.map Prod.fst).Nodup)
    (hnz : ∀ bp ∈ l, bp.2 ≠ 0) (hsort : List.Sorted descPow l) : gatherC l = l := by
  rw [gatherC_eq_sort, List.dedup_eq_self.mpr hnod]
  have hpairs : (l.map Prod.fst).map
      (fun b => (b, ((l.filter fun bp => bp.1 = b).map Prod.snd).sum)) = l := by
    rw [List.map_map]
    have : ∀ bp ∈ l, ((fun b => (b, ((l.filter fun x => x.1 = b).map Prod.snd).sum)) ∘ Prod.fst) bp
        = id bp := by
      intro bp hbp
      obtain ⟨b, p⟩ := bp
      simp only [Function.comp_apply, id_eq]
      rw [filter_singleton_of_nodup l hnod b p hbp]
      simp
    rw [List.map_congr_left this, List.map_id]
  rw [hpairs]
  rw [List.filter_eq_self.mpr fun bp hbp => by simpa using hnz bp hbp]
  exact hsort.insertionSort_eq

/-- C5 counterexample: with lazily built double nesting,
`CompositeUnit(1, [CompositeUnit(1, [CompositeUnit(1, [m], [2])], [1])], [1])`,
one `simplify()` flattens only one level (its single `_expand` pass does not
revisit appended entries), so simplifying the result again changes it —
`simplify` is not idempotent on all composites. -/
theorem c5_counterexample :
    simplifyU (.composite 1 [(.composite 1 [(.composite 1 [(u_m, 2)], 1)], 1)]) =
      .ok (.composite 1 [(.composite 1 [(u_m, 2)], 1)]) ∧
    simplifyU (.composite 1 [(.composite 1 [(u_m, 2)], 1)]) = .ok (.composite 1 [(u_m, 2)]) ∧
    (UnitT.composite 1 [(.composite 1 [(u_m, 2)], 1)]) ≠ .composite 1 [(u_m, 2)] := by
  refine ⟨?_, ?_, ?_⟩ <;> with_unfolding_all decide

/-- C5 (amended): `simplify()` is idempotent on every composite whose
simplified form retains no composite base — in particular on everything the
operators and the parser build, where nesting is at most one level deep;
deeper lazy nesting needs one extra `simplify()` pass per level. -/
theorem c5_simplify_idempotent_on_flat (s : ℚ) (items : List (UnitT × ℚ)) (u : UnitT)
    (h : simplifyU (.composite s items) = .ok u)
    (hflat : ∀ s2 it2, u = .composite s2 it2 → ∀ bp ∈ it2, isComp bp.1 = false) :
    simplifyU u = .ok u := by
  obtain ⟨m, kept, app, hE, hu⟩ := simplifyU_composite_ok h
  subst hu
  have hfl := hflat _ _ rfl
  show (do
    let (m2, kept2, app2) ← expandItems false (gatherC (kept ++ app))
    Except.ok (UnitT.composite (s * m * m2) (gatherC (kept2 ++ app2)))) = _
  rw [expandItems_false_id _ hfl]
  show Except.ok (UnitT.composite (s * m * 1) (gatherC (gatherC (kept ++ app) ++ []))) = _
  rw [mul_one, List.append_nil,
    gatherC_of_canonical _ (gatherC_fst_nodup _) (gatherC_powers_ne_zero _) (gatherC_sorted _)]

/-- Witness for C5's amended statement: `(m m).simplify()` gives `m**2`,
which `simplify()` leaves unchanged. -/
theorem c5_witness : simplifyU (.composite 1 [(u_m, 2)]) = .ok (.composite 1 [(u_m, 2)]) :=
  c5_simplify_idempotent_on_flat 1 [(u_m, 1), (u_m, 1)] (.composite 1 [(u_m, 2)])
    (by with_unfolding_all decide)
    (by
      intro s2 it2 heq
      cases heq
      with_unfolding_all decide)

theorem noUnitFreeItems_iff : ∀ l : List (UnitT × ℚ),
    noUnitFreeItems l = true ↔ ∀ bp ∈ l, noUnitFree bp.1 = true := by
  intro l
  induction l with
  | nil => simp [noUnitFreeItems]
  | cons hd tl ih =>
    rw [noUnitFreeItems, Bool.and_eq_true, ih]
    constructor
    · rintro ⟨h1, h2⟩ bp hbp
      rcases List.mem_cons.mp hbp with heq | hmem
      · rw [heq]; exact h1
      · exact h2 bp hmem
    · intro h
      exact ⟨h hd (List.mem_cons_self _ _), fun bp hbp => h bp (List.mem_cons_of_mem _ hbp)⟩

theorem gatherC_fst_mem (l : List (UnitT × ℚ)) :
    ∀ bp ∈ gatherC l, bp.1 ∈ l.map Prod.fst := by
  intro bp hbp
  have h1 := (gatherC_perm_filter l).mem_iff.mp hbp
  have h2 := List.mem_of_mem_filter h1
  obtain ⟨b, hb, hfx⟩ := List.mem_map.mp h2
  rw [← hfx]
  exact List.mem_dedup.mp hb

theorem gatherC_pure {l : List (UnitT × ℚ)} (h : pureIrrepItems l) :
    pureIrrepItems (gatherC l) := by
  intro bp hbp
  obtain ⟨x, hx, hfx⟩ := List.mem_map.mp (gatherC_fst_mem l bp hbp)
  obtain ⟨n, hn⟩ := h x hx
  exact ⟨n, by rw [← hfx, hn]⟩

theorem mapPow_pure {l : List (UnitT × ℚ)} (p : ℚ) (h : pureIrrepItems l) :
    pureIrrepItems (l.map fun bp => (bp.1, bp.2 * p)) := by
  intro bp hbp
  obtain ⟨x, hx, hfx⟩ := List.mem_map.mp hbp
  obtain ⟨n, hn⟩ := h x hx
  exact ⟨n, by rw [← hfx, hn]⟩

theorem append_pure {l1 l2 : List (UnitT × ℚ)} (h1 : pureIrrepItems l1)
    (h2 : pureIrrepItems l2) : pureIrrepItems (l1 ++ l2) := by
  intro bp hbp
  rcases List.mem_append.mp hbp with h | h
  · exact h1 bp h
  · exact h2 bp h

theorem triple_ok_inj {ε A B C : Type} {x1 : A} {y1 : B} {z1 : C} {x2 : A} {y2 : B} {z2 : C}
    (h : (Except.ok (x1, y1, z1) : Except ε (A × B × C)) = .ok (x2, y2, z2)) :
    x1 = x2 ∧ y1 = y2 ∧ z1 = z2 := by
  have h2 := Except.ok.inj h
  injection h2 with hA hBC
  injection hBC with hB hC
  exact ⟨hA, hB, hC⟩

theorem irrep_pure_aux : ∀ N : ℕ,
    (∀ u : UnitT, sizeOf u ≤ N → noUnitFree u = true → ∀ v, irrepU u = .ok v →
      ∃ s2 it2, v = .composite s2 it2 ∧ pureIrrepItems it2) ∧
    (∀ l : List (UnitT × ℚ), sizeOf l ≤ N → noUnitFreeItems l = true →
      ∀ m kept app, expandItems true l = .ok (m, kept, app) →
        pureIrrepItems (kept ++ app)) := by
  intro N
  induction N using Nat.strong_induction_on with
  | _ N IH =>
    constructor
    · intro u hsz hwf v hv
      cases u with
      | noUnit => exact absurd hwf (by simp [noUnitFree])
      | irreducible n =>
        refine ⟨1, [(.irreducible n, 1)], (Except.ok.inj hv).symm, ?_⟩
        intro bp hbp
        rcases List.mem_cons.mp hbp with heq | h2
        · exact ⟨n, by rw [heq]⟩
        · cases h2
      | named nm r =>
        have hszr : sizeOf r < N := by
          have := hsz
          simp only [UnitT.named.sizeOf_spec] at this
          omega
        exact (IH (sizeOf r) hszr).1 r le_rfl hwf v hv
      | composite s items =>
        have h2 : (expandItems true items >>= fun t => match t with
            | (m, kept, app) => Except.ok (UnitT.composite (s * m) (gatherC (kept ++ app)))) =
            .ok v := hv
        obtain ⟨t, ht, hf⟩ := except_bind_ok h2
        obtain ⟨m, kept, app⟩ := t
        have hszit : sizeOf items < N := by
          have := hsz
          simp only [UnitT.composite.sizeOf_spec] at this
          omega
        have hpure := (IH (sizeOf items) hszit).2 items le_rfl hwf m kept app ht
        exact ⟨s * m, gatherC (kept ++ app), (Except.ok.inj hf).symm, gatherC_pure hpure⟩
    · intro l hsz hwf m kept app h
      cases l with
      | nil =>
        obtain ⟨h1, h2, h3⟩ := triple_ok_inj h
        rw [← h2, ← h3]
        intro bp hbp
        cases hbp
      | cons hd tl =>
        obtain ⟨b, p⟩ := hd
        have hwfb : noUnitFree b = true :=
          (noUnitFreeItems_iff _).mp hwf (b, p) (List.mem_cons_self _ _)
        have hwft : noUnitFreeItems tl = true := by
          rw [noUnitFreeItems_iff]
          intro bp hbp
          exact (noUnitFreeItems_iff _).mp hwf bp (List.mem_cons_of_mem _ hbp)
        have hsztl : sizeOf tl < N := by
          have := hsz
          simp only [List.cons.sizeOf_spec] at this
          omega
        cases b with
        | noUnit => exact absurd hwfb (by simp [noUnitFree])
        | irreducible n =>
          obtain ⟨t, ht, hf⟩ := except_bind_ok h
          obtain ⟨m2, k2, a2⟩ := t
          obtain ⟨hm, hk, ha⟩ := triple_ok_inj hf
          have hpure := (IH (sizeOf tl) hsztl).2 tl le_rfl hwft m2 k2 a2 ht
          rw [← hk, ← ha]
          rw [List.cons_append]
          intro bp hbp
          rcases List.mem_cons.mp hbp with heq | h2
          · exact ⟨n, by rw [heq]⟩
          · exact hpure bp h2
        | named nm r =>
          obtain ⟨b1, hb1, hrest⟩ := except_bind_ok h
          have hszr : sizeOf r < N := by
            have := hsz
            simp only [List.cons.sizeOf_spec, Prod.mk.sizeOf_spec,
              UnitT.named.sizeOf_spec] at this
            omega
          obtain ⟨s2, it2, hb1eq, hpure2⟩ :=
            (IH (sizeOf r) hszr).1 r le_rfl hwfb b1 hb1
          subst hb1eq
          obtain ⟨pr, hpr, h3⟩ := except_bind_ok hrest
          have hpr2 : pr = (s2, gatherC it2) :=
            Except.ok.inj hpr.symm
          subst hpr2
          obtain ⟨f, hfp, h4⟩ := except_bind_ok h3
          obtain ⟨t, ht, h5⟩ := except_bind_ok h4
          obtain ⟨m2, k2, a2⟩ := t
          obtain ⟨hm, hk, ha⟩ := triple_ok_inj h5
          have hpure := (IH (sizeOf tl) hsztl).2 tl le_rfl hwft m2 k2 a2 ht
          rw [← hk, ← ha]
          intro bp hbp
          rcases List.mem_append.mp hbp with hmem | hmem
          · exact hpure bp (List.mem_append.mpr (Or.inl hmem))
          · rcases List.mem_append.mp hmem with hmem2 | hmem2
            · exact mapPow_pure p (gatherC_pure hpure2) bp hmem2
            · exact hpure bp (List.mem_append.mpr (Or.inr hmem2))
        | composite s2 it2 =>
          obtain ⟨b2, hb2, hrest⟩ := except_bind_ok h
          have hszc : sizeOf (UnitT.composite s2 it2) < N := by
            have := hsz
            simp only [List.cons.sizeOf_spec, Prod.mk.sizeOf_spec] at this
            omega
          obtain ⟨s3, it3, hb2eq, hpure3⟩ :=
            (IH (sizeOf (UnitT.composite s2 it2)) hszc).1 (UnitT.composite s2 it2)
              le_rfl hwfb b2 hb2
          subst hb2eq
          obtain ⟨f, hfp, h4⟩ := except_bind_ok hrest
          obtain ⟨t, ht, h5⟩ := except_bind_ok h4
          obtain ⟨m2, k2, a2⟩ := t
          obtain ⟨hm, hk, ha⟩ := triple_ok_inj h5
          have hpure := (IH (sizeOf tl) hsztl).2 tl le_rfl hwft m2 k2 a2 ht
          rw [← hk, ← ha]
          intro bp hbp
          rcases List.mem_append.mp hbp with hmem | hmem
          · exact hpure bp (List.mem_append.mpr (Or.inl hmem))
          · rcases List.mem_append.mp hmem with hmem2 | hmem2
            · exact mapPow_pure p hpure3 bp hmem2
            · exact hpure bp (List.mem_append.mpr (Or.inr hmem2))

/-- C6 counterexample: a composite with the `NoUnit` sentinel among its bases
survives `irrep()` unchanged, so the result is not expressed purely in
irreducible units. -/
theorem c6_counterexample :
    irrepU (.composite 1 [(.noUnit, 1)]) = .ok (.composite 1 [(.noUnit, 1)]) ∧
    ¬ pureIrrepItems [((UnitT.noUnit : UnitT), (1 : ℚ))] := by
  constructor
  · with_unfolding_all decide
  · intro h
    obtain ⟨n, hn⟩ := h (UnitT.noUnit, 1) (List.mem_cons_self _ _)
    cases hn

/-- C6 (amended): on every composite free of the `NoUnit` sentinel — which no
operator or parser output ever contains — `irrep()` returns a fresh composite
whose bases are all irreducible while the receiver keeps its scale and entry
lists, in contrast to `simplify()`, whose receiver after the call is the
canonicalised value. -/
theorem c6_irrep_pure_receiver_preserved :
    (∀ (s : ℚ) (items : List (UnitT × ℚ)) x rcv,
      noUnitFree (.composite s items) = true →
      irrepCall (.composite s items) = .ok (x, rcv) →
      rcv = .composite s items ∧ ∃ s2 it2, x = .composite s2 it2 ∧ pureIrrepItems it2) ∧
    simplifyCall (.composite 1 [(u_m, 1), (u_m, 1)]) =
      .ok (.composite 1 [(u_m, 2)], .composite 1 [(u_m, 2)]) ∧
    irrepCall (.composite 1 [(u_m, 1), (u_m, 1)]) =
      .ok (.composite 1 [(u_m, 2)], .composite 1 [(u_m, 1), (u_m, 1)]) ∧
    (UnitT.composite 1 [(u_m, 2)]) ≠ .composite 1 [(u_m, 1), (u_m, 1)] := by
  refine ⟨?_, ?_, ?_, ?_⟩
  · intro s items x rcv hwf h
    obtain ⟨x0, hx0, hpair⟩ := except_bind_ok h
    have hinj := Except.ok.inj hpair
    injection hinj with h1 h2
    subst h1
    refine ⟨h2.symm, ?_⟩
    exact (irrep_pure_aux (sizeOf (UnitT.composite s items))).1 _ le_rfl hwf _ hx0
  · with_unfolding_all decide
  · with_unfolding_all decide
  · with_unfolding_all decide

/-- Witness for C6 at `CompositeUnit(1, [kpc], [1])`. -/
theorem c6_witness :
    (UnitT.composite 1000 [(u_pc, 1)]) = .composite 1000 [(u_pc, 1)] ∧
    ∃ s2 it2, (UnitT.composite (mkRat 30856802500000000000 1) [(u_m, 1)]) =
      .composite s2 it2 ∧ pureIrrepItems it2 :=
  c6_irrep_pure_receiver_preserved.1 1000 [(u_pc, 1)]
    (.composite (mkRat 30856802500000000000 1) [(u_m, 1)])
    (.composite 1000 [(u_pc, 1)]) (by with_unfolding_all decide)
    (by with_unfolding_all decide)

theorem bind_ok_reduce {ε α β : Type} {e : Except ε α} {a : α} (h : e = .ok a)
    (f : α → Except ε β) : (e >>= f) = f a := by
  rw [h]
  rfl

/-- C1: `dimensional_project` builds, over the union of irreducible dimensions
of the unit's irrep and the basis irreps, the matrix `M` of basis powers and
the vector `v` of the unit's powers, and returns the exact-rational
normal-equations solution `d = (MᵀM)⁻¹ Mᵀ v`: any returned `d` satisfies
`M·d = v` exactly; `Unit("m**3 kg**-1 s**-2").dimensional_project(["m","kg","s"])`
returns `[3, -1, -2]`; a singular `MᵀM` raises the linearly-dependent-basis
error (concretely for basis `["m","m"]`), and a candidate violating `M·d = v`
raises the non-spanning-basis error (concretely for
`Unit("m").dimensional_project(["kg","s"])`). -/
theorem c1_dimensional_project :
    (∀ (s : ℚ) (items : List (UnitT × ℚ)) basis d vecs me,
      basisIrreps basis = .ok vecs →
      irrepC s items = .ok me →
      dimensional_project (.composite s items) basis = .ok d →
      matVec (dpMatrix (dpBases me.2 vecs) vecs) d =
        (dpBases me.2 vecs).map (power_of me.2) ∧
      ∃ minv, rational_matrix_inv
          ((matTrK vecs.length (dpMatrix (dpBases me.2 vecs) vecs)).map
            fun r => (matTrK vecs.length (dpMatrix (dpBases me.2 vecs) vecs)).map (dotL r)) =
          some minv ∧
        d = matVec minv (matVec (matTrK vecs.length (dpMatrix (dpBases me.2 vecs) vecs))
          ((dpBases me.2 vecs).map (power_of me.2)))) ∧
    (∀ (s : ℚ) (items : List (UnitT × ℚ)) basis vecs me,
      basisIrreps basis = .ok vecs →
      irrepC s items = .ok me →
      rational_matrix_inv ((matTrK vecs.length (dpMatrix (dpBases me.2 vecs) vecs)).map
        fun r => (matTrK vecs.length (dpMatrix (dpBases me.2 vecs) vecs)).map (dotL r)) = none →
      dimensional_project (.composite s items) basis =
        .error (.unitsException "Basis units are not linearly independent")) ∧
    (∀ (s : ℚ) (items : List (UnitT × ℚ)) basis vecs me minv,
      basisIrreps basis = .ok vecs →
      irrepC s items = .ok me →
      rational_matrix_inv ((matTrK vecs.length (dpMatrix (dpBases me.2 vecs) vecs)).map
        fun r => (matTrK vecs.length (dpMatrix (dpBases me.2 vecs) vecs)).map (dotL r)) =
        some minv →
      matVec (dpMatrix (dpBases me.2 vecs) vecs)
          (matVec minv (matVec (matTrK vecs.length (dpMatrix (dpBases me.2 vecs) vecs))
            ((dpBases me.2 vecs).map (power_of me.2)))) ≠
        (dpBases me.2 vecs).map (power_of me.2) →
      dimensional_project (.composite s items) basis =
        .error (.unitsException "Basis units do not span dimensions of specified unit")) ∧
    (do
      let u ← parseUnit "m**3 kg**-1 s**-2"
      dimensional_project u ["m", "kg", "s"]) = .ok [3, -1, -2] ∧
    (do
      let u ← parseUnit "m"
      dimensional_project u ["m", "m"]) =
      .error (.unitsException "Basis units are not linearly independent") ∧
    (do
      let u ← parseUnit "m"
      dimensional_project u ["kg", "s"]) =
      .error (.unitsException "Basis units do not span dimensions of specified unit") := by
  refine ⟨?_, ?_, ?_, ?_, ?_, ?_⟩
  · intro s items basis d vecs me hvecs hme h
    simp only [dimensional_project] at h
    rw [bind_ok_reduce hvecs, bind_ok_reduce hme] at h
    split at h
    next => cases h
    next minv hinv =>
      split at h
      next hif =>
        have hd := Except.ok.inj h
        rw [← hd]
        exact ⟨hif, minv, hinv, rfl⟩
      next hif => cases h
  · intro s items basis vecs me hvecs hme hinv
    simp only [dimensional_project]
    rw [bind_ok_reduce hvecs, bind_ok_reduce hme]
    rw [hinv]
  · intro s items basis vecs me minv hvecs hme hinv hne
    simp only [dimensional_project]
    rw [bind_ok_reduce hvecs, bind_ok_reduce hme]
    simp only [hinv]
    rw [if_neg hne]
  · with_unfolding_all decide
  · with_unfolding_all decide
  · with_unfolding_all decide

/-- Witness for C1's conditional statements at
`Unit("m**3 kg**-1 s**-2").dimensional_project(["m","kg","s"])`. -/
theorem c1_witness :
    matVec (dpMatrix (dpBases [(u_m, 3), (u_kg, -1), (u_s, -2)]
        [[(u_m, 1)], [(u_kg, 1)], [(u_s, 1)]]) [[(u_m, 1)], [(u_kg, 1)], [(u_s, 1)]])
      [3, -1, -2] =
      (dpBases [(u_m, 3), (u_kg, -1), (u_s, -2)]
        [[(u_m, 1)], [(u_kg, 1)], [(u_s, 1)]]).map
        (power_of [(u_m, 3), (u_kg, -1), (u_s, -2)]) ∧
    ∃ minv, rational_matrix_inv
        ((matTrK 3 (dpMatrix (dpBases [(u_m, 3), (u_kg, -1), (u_s, -2)]
            [[(u_m, 1)], [(u_kg, 1)], [(u_s, 1)]]) [[(u_m, 1)], [(u_kg, 1)], [(u_s, 1)]])).map
          fun r => (matTrK 3 (dpMatrix (dpBases [(u_m, 3), (u_kg, -1), (u_s, -2)]
            [[(u_m, 1)], [(u_kg, 1)], [(u_s, 1)]]) [[(u_m, 1)], [(u_kg, 1)], [(u_s, 1)]])).map
            (dotL r)) = some minv ∧
      [3, -1, -2] = matVec minv (matVec (matTrK 3 (dpMatrix
          (dpBases [(u_m, 3), (u_kg, -1), (u_s, -2)] [[(u_m, 1)], [(u_kg, 1)], [(u_s, 1)]])
          [[(u_m, 1)], [(u_kg, 1)], [(u_s, 1)]]))
        ((dpBases [(u_m, 3), (u_kg, -1), (u_s, -2)] [[(u_m, 1)], [(u_kg, 1)], [(u_s, 1)]]).map
          (power_of [(u_m, 3), (u_kg, -1), (u_s, -2)]))) :=
  c1_dimensional_project.1 1 [(u_m, 3), (u_kg, -1), (u_s, -2)] ["m", "kg", "s"]
    [3, -1, -2] [[(u_m, 1)], [(u_kg, 1)], [(u_s, 1)]]
    (1, [(u_m, 3), (u_kg, -1), (u_s, -2)])
    (by with_unfolding_all decide) (by with_unfolding_all decide)
    (by with_unfolding_all decide)

theorem fpow_neg_mul {x p u w : ℚ} (hu : fpow x p = .ok u) (hw : fpow x (-p) = .ok w) :
    u * w = 1 := by
  unfold fpow at hu hw
  simp only [Rat.neg_den, Rat.neg_num] at hw
  split_ifs at hu hw with h1 h2 h3 h4 h5 h6 h7
  · rw [← Except.ok.inj hu, ← Except.ok.inj hw]; norm_num
  · rw [← Except.ok.inj hu, ← Except.ok.inj hw]
    by_cases hx0 : x = 0
    · have hn : p.num = 0 := by
        rcases not_and.mp h3 hx0 with h3'
        rcases not_and.mp h4 hx0 with h4'
        omega
      rw [hx0, hn]; norm_num
    · rw [← zpow_add₀ hx0]; simp
  · have hp0 : p = 0 := le_antisymm (neg_nonneg.mp (not_lt.mp h7)) (not_lt.mp h6)
    rw [hp0] at h2; exact absurd rfl h2

theorem exc_ok_bind {ε α β : Type} (a : α) (f : α → Except ε β) :
    (Except.ok a >>= f : Except ε β) = f a := rfl

theorem exc_error_bind {ε α β : Type} (e : ε) (f : α → Except ε β) :
    (Except.error e >>= f : Except ε β) = .error e := rfl

theorem expandItems_cons_eq (irr : Bool) (b : UnitT) (p : ℚ) (rest : List (UnitT × ℚ)) :
    expandItems irr ((b, p) :: rest) =
      (do
        let (f, k0, a0) ← stepOne irr (b, p)
        let (m, k, a) ← expandItems irr rest
        Except.ok (f * m, k0 ++ k, a0 ++ a)) := by
  cases b with
  | noUnit =>
      cases h : expandItems irr rest with
      | error e =>
          show (expandItems irr rest >>= _) = _
          rw [h]; rfl
      | ok t =>
          obtain ⟨m, k, a⟩ := t
          show (expandItems irr rest >>= _) = _
          rw [h]
          show Except.ok (m, (UnitT.noUnit, p) :: k, a) =
            Except.ok (1 * m, (UnitT.noUnit, p) :: k, a)
          rw [one_mul]
  | irreducible n =>
      cases h : expandItems irr rest with
      | error e =>
          show (expandItems irr rest >>= _) = _
          rw [h]; rfl
      | ok t =>
          obtain ⟨m, k, a⟩ := t
          show (expandItems irr rest >>= _) = _
          rw [h]
          show Except.ok (m, (UnitT.irreducible n, p) :: k, a) =
            Except.ok (1 * m, (UnitT.irreducible n, p) :: k, a)
          rw [one_mul]
  | named nm r =>
      cases irr with
      | false =>
          cases h : expandItems false rest with
          | error e =>
              show (expandItems false rest >>= _) = _
              rw [h]; rfl
          | ok t =>
              obtain ⟨m, k, a⟩ := t
              show (expandItems false rest >>= _) = _
              rw [h]
              show Except.ok (m, (UnitT.named nm r, p) :: k, a) =
                Except.ok (1 * m, (UnitT.named nm r, p) :: k, a)
              rw [one_mul]
      | true =>
          cases hb : irrepU r with
          | error e =>
              show (irrepU r >>= _) = ((irrepU r >>= _) >>= _)
              rw [hb]; rfl
          | ok b1 =>
              show (irrepU r >>= _) = ((irrepU r >>= _) >>= _)
              rw [hb]
              cases b1 with
              | composite s2 it2 =>
                  cases hf : fpow s2 p with
                  | error e =>
                      show (fpow s2 p >>= _) = ((fpow s2 p >>= _) >>= _)
                      rw [hf]; rfl
                  | ok f =>
                      show (fpow s2 p >>= _) = ((fpow s2 p >>= _) >>= _)
                      rw [hf]
                      cases h : expandItems true rest with
                      | error e => rfl
                      | ok t => obtain ⟨m, k, a⟩ := t; rfl
              | noUnit =>
                  cases h : expandItems true rest with
                  | error e => rfl
                  | ok t =>
                      obtain ⟨m, k, a⟩ := t
                      show Except.ok (m, (UnitT.named nm r, p) :: k, a) =
                        Except.ok (1 * m, (UnitT.named nm r, p) :: k, a)
                      rw [one_mul]
              | irreducible n =>
                  cases h : expandItems true rest with
                  | error e => rfl
                  | ok t =>
                      obtain ⟨m, k, a⟩ := t
                      show Except.ok (m, (UnitT.named nm r, p) :: k, a) =
                        Except.ok (1 * m, (UnitT.named nm r, p) :: k, a)
                      rw [one_mul]
              | named nm2 r2 =>
                  cases h : expandItems true rest with
                  | error e => rfl
                  | ok t =>
                      obtain ⟨m, k, a⟩ := t
                      show Except.ok (m, (UnitT.named nm r, p) :: k, a) =
                        Except.ok (1 * m, (UnitT.named nm r, p) :: k, a)
                      rw [one_mul]
  | composite s2 it2 =>
      cases irr with
      | false =>
          cases hf : fpow s2 p with
          | error e =>
              show (fpow s2 p >>= _) = ((fpow s2 p >>= _) >>= _)
              rw [hf]; rfl
          | ok f =>
              show (fpow s2 p >>= _) = ((fpow s2 p >>= _) >>= _)
              rw [hf]
              cases h : expandItems false rest with
              | error e => rfl
              | ok t => obtain ⟨m, k, a⟩ := t; rfl
      | true =>
          cases hb : irrepU (.composite s2 it2) with
          | error e =>
              show (irrepU (.composite s2 it2) >>= _) =
                ((irrepU (.composite s2 it2) >>= _) >>= _)
              rw [hb]; rfl
          | ok b2 =>
              show (irrepU (.composite s2 it2) >>= _) =
                ((irrepU (.composite s2 it2) >>= _) >>= _)
              rw [hb]
              cases b2 with
              | composite s3 it3 =>
                  cases hf : fpow s3 p with
                  | error e =>
                      show (fpow s3 p >>= _) = ((fpow s3 p >>= _) >>= _)
                      rw [hf]; rfl
                  | ok f =>
                      show (fpow s3 p >>= _) = ((fpow s3 p >>= _) >>= _)
                      rw [hf]
                      cases h : expandItems true rest with
                      | error e => rfl
                      | ok t => obtain ⟨m, k, a⟩ := t; rfl
              | noUnit => rfl
              | irreducible n => rfl
              | named nm2 r2 => rfl

theorem negItems_map_mul (l : List (UnitT × ℚ)) (p : ℚ) :
    (l.map fun bp => (bp.1, bp.2 * -p)) = negItems (l.map fun bp => (bp.1, bp.2 * p)) := by
  rw [negItems, List.map_map]
  exact List.map_congr_left fun bp _ => by simp [Function.comp, mul_neg]

theorem stepOne_neg {irr : Bool} {b : UnitT} {p f1 f2 : ℚ}
    {k1 a1 k2 a2 : List (UnitT × ℚ)}
    (h1 : stepOne irr (b, p) = .ok (f1, k1, a1))
    (h2 : stepOne irr (b, -p) = .ok (f2, k2, a2)) :
    f1 * f2 = 1 ∧ k2 = negItems k1 ∧ a2 = negItems a1 := by
  cases b with
  | noUnit =>
      obtain ⟨e1, e2, e3⟩ := triple_ok_inj h1
      obtain ⟨g1, g2, g3⟩ := triple_ok_inj h2
      subst e1 e2 e3 g1 g2 g3
      exact ⟨by norm_num, rfl, rfl⟩
  | irreducible n =>
      obtain ⟨e1, e2, e3⟩ := triple_ok_inj h1
      obtain ⟨g1, g2, g3⟩ := triple_ok_inj h2
      subst e1 e2 e3 g1 g2 g3
      exact ⟨by norm_num, rfl, rfl⟩
  | named nm r =>
      cases irr with
      | false =>
          obtain ⟨e1, e2, e3⟩ := triple_ok_inj h1
          obtain ⟨g1, g2, g3⟩ := triple_ok_inj h2
          subst e1 e2 e3 g1 g2 g3
          exact ⟨by norm_num, rfl, rfl⟩
      | true =>
          rw [show stepOne true (UnitT.named nm r, p) = (irrepU r >>= _) from rfl] at h1
          rw [show stepOne true (UnitT.named nm r, -p) = (irrepU r >>= _) from rfl] at h2
          obtain ⟨b1, hb1, h1'⟩ := except_bind_ok h1
          obtain ⟨b1', hb1', h2'⟩ := except_bind_ok h2
          rw [hb1] at hb1'
          cases Except.ok.inj hb1'
          cases b1 with
          | composite s2 it2 =>
              obtain ⟨g1, hg1, h1''⟩ := except_bind_ok h1'
              obtain ⟨g2, hg2, h2''⟩ := except_bind_ok h2'
              obtain rfl : g1 = (s2, gatherC it2) := (Except.ok.inj hg1).symm
              obtain rfl : g2 = (s2, gatherC it2) := (Except.ok.inj hg2).symm
              obtain ⟨f, hf, hr1⟩ := except_bind_ok h1''
              obtain ⟨f', hf', hr2⟩ := except_bind_ok h2''
              obtain ⟨e1, e2, e3⟩ := triple_ok_inj hr1
              obtain ⟨g1', g2', g3'⟩ := triple_ok_inj hr2
              subst e1 e2 e3 g1' g2' g3'
              exact ⟨fpow_neg_mul hf hf', rfl, negItems_map_mul _ _⟩
          | noUnit =>
              obtain ⟨e1, e2, e3⟩ := triple_ok_inj h1'
              obtain ⟨g1, g2, g3⟩ := triple_ok_inj h2'
              subst e1 e2 e3 g1 g2 g3
              exact ⟨by norm_num, rfl, rfl⟩
          | irreducible n =>
              obtain ⟨e1, e2, e3⟩ := triple_ok_inj h1'
              obtain ⟨g1, g2, g3⟩ := triple_ok_inj h2'
              subst e1 e2 e3 g1 g2 g3
              exact ⟨by norm_num, rfl, rfl⟩
          | named nm2 r2 =>
              obtain ⟨e1, e2, e3⟩ := triple_ok_inj h1'
              obtain ⟨g1, g2, g3⟩ := triple_ok_inj h2'
              subst e1 e2 e3 g1 g2 g3
              exact ⟨by norm_num, rfl, rfl⟩
  | composite s2 it2 =>
      cases irr with
      | false =>
          rw [show stepOne false (UnitT.composite s2 it2, p) = (fpow s2 p >>= _) from rfl] at h1
          rw [show stepOne false (UnitT.composite s2 it2, -p) = (fpow s2 (-p) >>= _) from rfl] at h2
          obtain ⟨f, hf, hr1⟩ := except_bind_ok h1
          obtain ⟨f', hf', hr2⟩ := except_bind_ok h2
          obtain ⟨e1, e2, e3⟩ := triple_ok_inj hr1
          obtain ⟨g1', g2', g3'⟩ := triple_ok_inj hr2
          subst e1 e2 e3 g1' g2' g3'
          exact ⟨fpow_neg_mul hf hf', rfl, negItems_map_mul _ _⟩
      | true =>
          rw [show stepOne true (UnitT.composite s2 it2, p) =
            (irrepU (.composite s2 it2) >>= _) from rfl] at h1
          rw [show stepOne true (UnitT.composite s2 it2, -p) =
            (irrepU (.composite s2 it2) >>= _) from rfl] at h2
          obtain ⟨b1, hb1, h1'⟩ := except_bind_ok h1
          obtain ⟨b1', hb1', h2'⟩ := except_bind_ok h2
          rw [hb1] at hb1'
          cases Except.ok.inj hb1'
          cases b1 with
          | composite s3 it3 =>
              obtain ⟨f, hf, hr1⟩ := except_bind_ok h1'
              obtain ⟨f', hf', hr2⟩ := except_bind_ok h2'
              obtain ⟨e1, e2, e3⟩ := triple_ok_inj hr1
              obtain ⟨g1', g2', g3'⟩ := triple_ok_inj hr2
              subst e1 e2 e3 g1' g2' g3'
              exact ⟨fpow_neg_mul hf hf', rfl, negItems_map_mul _ _⟩
          | noUnit => exact Except.noConfusion h1'
          | irreducible n => exact Except.noConfusion h1'
          | named nm2 r2 => exact Except.noConfusion h1'

theorem perm_shuffle {α : Type} {k0 a0 kk aa kk' aa' : List α}
    (h : List.Perm (kk' ++ aa') (kk ++ aa)) :
    List.Perm ((k0 ++ kk') ++ (a0 ++ aa')) ((k0 ++ kk) ++ (a0 ++ aa)) := by
  rw [← Multiset.coe_eq_coe] at h ⊢
  simp only [← Multiset.coe_add] at h ⊢
  rw [add_add_add_comm, h, add_add_add_comm]

theorem expandItems_cons_ok {irr : Bool} {b : UnitT} {p f m : ℚ}
    {k0 a0 k a rest : _} (h1 : stepOne irr (b, p) = .ok (f, k0, a0))
    (h2 : expandItems irr rest = .ok (m, k, a)) :
    expandItems irr ((b, p) :: rest) = .ok (f * m, k0 ++ k, a0 ++ a) := by
  rw [expandItems_cons_eq, bind_ok_reduce h1]
  show (expandItems irr rest >>= _) = _
  rw [h2]; rfl

theorem expandItems_perm_ok {irr : Bool} {l l' : List (UnitT × ℚ)} (hp : List.Perm l l') :
    ∀ {m : ℚ} {k a : List (UnitT × ℚ)}, expandItems irr l = .ok (m, k, a) →
      ∃ k' a', expandItems irr l' = .ok (m, k', a') ∧ List.Perm (k' ++ a') (k ++ a) := by
  induction hp with
  | nil => exact fun h => ⟨_, _, h, List.Perm.refl _⟩
  | cons x hlp IH =>
      intro m k a h
      obtain ⟨b, p⟩ := x
      rw [expandItems_cons_eq] at h
      obtain ⟨st, hst, h'⟩ := except_bind_ok h
      obtain ⟨f, k0, a0⟩ := st
      obtain ⟨t, ht, h''⟩ := except_bind_ok h'
      obtain ⟨mm, kk, aa⟩ := t
      obtain ⟨e1, e2, e3⟩ := triple_ok_inj h''
      subst e1 e2 e3
      obtain ⟨kk', aa', hE, hperm⟩ := IH ht
      exact ⟨k0 ++ kk', a0 ++ aa', expandItems_cons_ok hst hE, perm_shuffle hperm⟩
  | swap x y l1 =>
      intro m k a h
      rw [expandItems_cons_eq] at h
      obtain ⟨st1, hst1, h'⟩ := except_bind_ok h
      obtain ⟨f1, k1, a1⟩ := st1
      rw [expandItems_cons_eq] at h'
      obtain ⟨t, ht, h''⟩ := except_bind_ok h'
      obtain ⟨tm, tk, ta⟩ := t
      obtain ⟨st2, hst2, ht'⟩ := except_bind_ok ht
      obtain ⟨f2, k2, a2⟩ := st2
      obtain ⟨t1, ht1, htt⟩ := except_bind_ok ht'
      obtain ⟨mm, kk, aa⟩ := t1
      obtain ⟨e1, e2, e3⟩ := triple_ok_inj htt
      subst e1 e2 e3
      obtain ⟨e1, e2, e3⟩ := triple_ok_inj h''
      subst e1 e2 e3
      refine ⟨k2 ++ (k1 ++ kk), a2 ++ (a1 ++ aa), ?_, ?_⟩
      · rw [expandItems_cons_ok hst2 (expandItems_cons_ok hst1 ht1), mul_left_comm]
      · rw [← Multiset.coe_eq_coe]
        simp only [← Multiset.coe_add]
        abel
  | trans p1 p2 IH1 IH2 =>
      intro m k a h
      obtain ⟨k1, a1, hE1, hp1⟩ := IH1 h
      obtain ⟨k2, a2, hE2, hp2⟩ := IH2 hE1
      exact ⟨k2, a2, hE2, hp2.trans hp1⟩

theorem expandItems_neg {irr : Bool} : ∀ {l : List (UnitT × ℚ)} {m1 m2 : ℚ}
    {k1 a1 k2 a2 : List (UnitT × ℚ)},
    expandItems irr l = .ok (m1, k1, a1) →
    expandItems irr (negItems l) = .ok (m2, k2, a2) →
    m1 * m2 = 1 ∧ k2 = negItems k1 ∧ a2 = negItems a1 := by
  intro l
  induction l with
  | nil =>
      intro m1 m2 k1 a1 k2 a2 h1 h2
      obtain ⟨e1, e2, e3⟩ := triple_ok_inj h1
      obtain ⟨g1, g2, g3⟩ := triple_ok_inj h2
      subst e1 e2 e3 g1 g2 g3
      exact ⟨by norm_num, rfl, rfl⟩
  | cons bp rest IH =>
      intro m1 m2 k1 a1 k2 a2 h1 h2
      obtain ⟨b, p⟩ := bp
      rw [expandItems_cons_eq] at h1
      obtain ⟨st1, hst1, h1'⟩ := except_bind_ok h1
      obtain ⟨f1, k01, a01⟩ := st1
      obtain ⟨t1, ht1, h1''⟩ := except_bind_ok h1'
      obtain ⟨mm1, kk1, aa1⟩ := t1
      obtain ⟨e1, e2, e3⟩ := triple_ok_inj h1''
      subst e1 e2 e3
      rw [show negItems ((b, p) :: rest) = (b, -p) :: negItems rest from rfl,
        expandItems_cons_eq] at h2
      obtain ⟨st2, hst2, h2'⟩ := except_bind_ok h2
      obtain ⟨f2, k02, a02⟩ := st2
      obtain ⟨t2, ht2, h2''⟩ := except_bind_ok h2'
      obtain ⟨mm2, kk2, aa2⟩ := t2
      obtain ⟨g1, g2, g3⟩ := triple_ok_inj h2''
      subst g1 g2 g3
      obtain ⟨hm, hk, ha⟩ := IH ht1 ht2
      obtain ⟨hf, hk0, ha0⟩ := stepOne_neg hst1 hst2
      subst hk ha hk0 ha0
      refine ⟨?_, ?_, ?_⟩
      · calc f1 * mm1 * (f2 * mm2) = (f1 * f2) * (mm1 * mm2) := by ring
          _ = 1 := by rw [hf, hm]; norm_num
      · simp only [negItems, List.map_append]
      · simp only [negItems, List.map_append]

theorem expandItems_neg_perm {irr : Bool} {l1 l2 : List (UnitT × ℚ)}
    (hp : List.Perm l2 (negItems l1)) {m1 m2 : ℚ}
    {k1 a1 k2 a2 : List (UnitT × ℚ)}
    (h1 : expandItems irr l1 = .ok (m1, k1, a1))
    (h2 : expandItems irr l2 = .ok (m2, k2, a2)) :
    m1 * m2 = 1 ∧ List.Perm (k2 ++ a2) (negItems (k1 ++ a1)) := by
  obtain ⟨k', a', hE, hperm⟩ := expandItems_perm_ok hp h2
  obtain ⟨hm, hk, ha⟩ := expandItems_neg h1 hE
  subst hk ha
  refine ⟨hm, hperm.symm.trans ?_⟩
  simp only [negItems, List.map_append]
  exact List.Perm.refl _

theorem gatherC_perm_congr {l l' : List (UnitT × ℚ)} (hp : List.Perm l l') :
    List.Perm (gatherC l) (gatherC l') := by
  have hfun : (fun b => (b, ((l.filter fun bp => bp.1 = b).map Prod.snd).sum))
      = (fun b => (b, ((l'.filter fun bp => bp.1 = b).map Prod.snd).sum)) := by
    funext b
    have hs : List.Perm ((l.filter fun bp => bp.1 = b).map Prod.snd)
        ((l'.filter fun bp => bp.1 = b).map Prod.snd) := (hp.filter _).map _
    rw [hs.sum_eq]
  have hbases : List.Perm ((l.map Prod.fst).dedup) ((l'.map Prod.fst).dedup) :=
    (hp.map _).dedup
  rw [gatherC_eq_sort, gatherC_eq_sort]
  refine (List.perm_insertionSort descPow _).trans
    (List.Perm.trans ?_ (List.perm_insertionSort descPow _).symm)
  rw [hfun]
  exact (hbases.map _).filter _

theorem sum_map_negQ : ∀ (l : List ℚ), (l.map fun x => -x).sum = -l.sum
  | [] => by simp
  | x :: xs => by simp [sum_map_negQ xs, neg_add, add_comm]

theorem filter_negItems (X : List (UnitT × ℚ)) :
    (negItems X).filter (fun bp => bp.2 ≠ 0) = negItems (X.filter fun bp => bp.2 ≠ 0) := by
  rw [negItems, List.filter_map, negItems]
  congr 1
  apply List.filter_congr
  intro bp _
  show decide (¬-bp.2 = 0) = decide (¬bp.2 = 0)
  rw [decide_eq_decide]
  exact not_congr neg_eq_zero

theorem gatherC_neg (l : List (UnitT × ℚ)) :
    List.Perm (gatherC (negItems l)) (negItems (gatherC l)) := by
  have hbases : ((negItems l).map Prod.fst).dedup = (l.map Prod.fst).dedup := by
    rw [negItems, List.map_map]; rfl
  have hfun : (fun b => (b, (((negItems l).filter fun bp => bp.1 = b).map Prod.snd).sum))
      = (fun b => (b, -((l.filter fun bp => bp.1 = b).map Prod.snd).sum)) := by
    funext b
    have h1 : ((negItems l).filter fun bp => bp.1 = b)
        = negItems (l.filter fun bp => bp.1 = b) := by
      rw [negItems, List.filter_map, negItems]; rfl
    rw [h1]
    have h2 : (negItems (l.filter fun bp => bp.1 = b)).map Prod.snd
        = ((l.filter fun bp => bp.1 = b).map Prod.snd).map fun x => -x := by
      rw [negItems, List.map_map, List.map_map]; rfl
    rw [h2, sum_map_negQ]
  have hmap : (((l.map Prod.fst).dedup).map fun b =>
        (b, -((l.filter fun bp => bp.1 = b).map Prod.snd).sum))
      = negItems (((l.map Prod.fst).dedup).map fun b =>
        (b, ((l.filter fun bp => bp.1 = b).map Prod.snd).sum)) := by
    rw [negItems, List.map_map]; rfl
  have hmid : ((((negItems l).map Prod.fst).dedup).map
        (fun b => (b, (((negItems l).filter fun bp => bp.1 = b).map Prod.snd).sum))).filter
        (fun bp => bp.2 ≠ 0)
      = negItems ((((l.map Prod.fst).dedup).map
        (fun b => (b, ((l.filter fun bp => bp.1 = b).map Prod.snd).sum))).filter
        (fun bp => bp.2 ≠ 0)) := by
    rw [hbases, hfun, hmap, filter_negItems]
  rw [gatherC_eq_sort (negItems l), hmid, gatherC_eq_sort l]
  refine (List.perm_insertionSort descPow _).trans ?_
  rw [negItems, negItems]
  exact ((List.perm_insertionSort descPow _).map _).symm

theorem gatherC_neg_perm {l l' : List (UnitT × ℚ)} (hp : List.Perm l' (negItems l)) :
    List.Perm (gatherC l') (negItems (gatherC l)) :=
  (gatherC_perm_congr hp).trans (gatherC_neg l)

theorem dcFold_perm_ok {subs : String → Option ℚ} {l l' : List (UnitT × ℚ)}
    (hp : List.Perm l l') : ∀ {c r : ℚ}, dcFold subs c l = .ok r → dcFold subs c l' = .ok r := by
  induction hp with
  | nil => exact fun h => h
  | cons x hlp IH =>
      intro c r h
      obtain ⟨xb, xp⟩ := x
      cases hx : strU xb >>= subs with
      | none => rw [dcFold_cons_missing subs c hx] at h; exact Except.noConfusion h
      | some v =>
          rw [dcFold_cons_found subs c hx] at h
          obtain ⟨f, hf, hrest⟩ := except_bind_ok h
          rw [dcFold_cons_found subs c hx, bind_ok_reduce hf]
          exact IH hrest
  | swap x y l1 =>
      intro c r h
      obtain ⟨xb, xp⟩ := x
      obtain ⟨yb, yp⟩ := y
      cases hy : strU yb >>= subs with
      | none => rw [dcFold_cons_missing subs c hy] at h; exact Except.noConfusion h
      | some vy =>
          rw [dcFold_cons_found subs c hy] at h
          obtain ⟨fy, hfy, h'⟩ := except_bind_ok h
          cases hx : strU xb >>= subs with
          | none => rw [dcFold_cons_missing subs (c * fy) hx] at h'; exact Except.noConfusion h'
          | some vx =>
              rw [dcFold_cons_found subs (c * fy) hx] at h'
              obtain ⟨fx, hfx, h''⟩ := except_bind_ok h'
              rw [dcFold_cons_found subs c hx, bind_ok_reduce hfx,
                dcFold_cons_found subs (c * fx) hy, bind_ok_reduce hfy,
                mul_right_comm]
              exact h''
  | trans p1 p2 IH1 IH2 => exact fun h => IH2 (IH1 h)

theorem dcFold_neg {subs : String → Option ℚ} : ∀ {l : List (UnitT × ℚ)} {c1 c2 r1 r2 : ℚ},
    dcFold subs c1 l = .ok r1 → dcFold subs c2 (negItems l) = .ok r2 → r1 * r2 = c1 * c2 := by
  intro l
  induction l with
  | nil =>
      intro c1 c2 r1 r2 h1 h2
      rw [← Except.ok.inj h1, ← Except.ok.inj h2]
  | cons x rest IH =>
      intro c1 c2 r1 r2 h1 h2
      obtain ⟨xb, xp⟩ := x
      cases hx : strU xb >>= subs with
      | none => rw [dcFold_cons_missing subs c1 hx] at h1; exact Except.noConfusion h1
      | some v =>
          rw [dcFold_cons_found subs c1 hx] at h1
          obtain ⟨f1, hf1, h1'⟩ := except_bind_ok h1
          rw [show negItems ((xb, xp) :: rest) = (xb, -xp) :: negItems rest from rfl,
            dcFold_cons_found subs c2 hx] at h2
          obtain ⟨f2, hf2, h2'⟩ := except_bind_ok h2
          calc r1 * r2 = (c1 * f1) * (c2 * f2) := IH h1' h2'
            _ = (c1 * c2) * (f1 * f2) := by ring
            _ = c1 * c2 := by rw [fpow_neg_mul hf1 hf2, mul_one]

theorem divU_eq {a b : UnitT} (ha : a ≠ UnitT.noUnit) (hb : b ≠ UnitT.noUnit) :
    divU a b = simplifyU (.composite 1 [(a, 1), (b, -1)]) := by
  cases a <;> cases b <;> first
    | exact absurd rfl ha
    | exact absurd rfl hb
    | rfl

theorem irrepC_ok {s : ℚ} {items : List (UnitT × ℚ)} {xs : ℚ} {xit : List (UnitT × ℚ)}
    (h : irrepC s items = .ok (xs, xit)) :
    ∃ n kept app, expandItems true items = .ok (n, kept, app) ∧
      xs = s * n ∧ xit = gatherC (kept ++ app) := by
  obtain ⟨t, ht, hf⟩ := except_bind_ok h
  obtain ⟨n, kept, app⟩ := t
  have h2 := Except.ok.inj hf
  injection h2 with e1 e2
  exact ⟨n, kept, app, ht, e1.symm, e2.symm⟩

/-- C4: for every pair of units `A`, `B` and substitutions under which `ratio`
succeeds in both directions, `A.ratio(B) * B.ratio(A) = 1` holds exactly: the
reversed division negates every power, expansion factors and substituted
powers pair up as exact reciprocals, and the embedding's rational arithmetic
carries no float error at all. -/
theorem c4_ratio_antisymm (A B : UnitT) (subs : String → Option ℚ) (r1 r2 : ℚ)
    (h1 : ratioU A B subs = .ok r1) (h2 : ratioU B A subs = .ok r2) :
    r1 * r2 = 1 := by
  by_cases hA : A = UnitT.noUnit
  · subst hA
    cases B with
    | noUnit => rw [← Except.ok.inj h1, ← Except.ok.inj h2]; norm_num
    | irreducible n => exact Except.noConfusion h1
    | named nm r => exact Except.noConfusion h1
    | composite s it => exact Except.noConfusion h1
  · by_cases hB : B = UnitT.noUnit
    · subst hB
      cases A with
      | noUnit => exact absurd rfl hA
      | irreducible n => exact Except.noConfusion h2
      | named nm r => exact Except.noConfusion h2
      | composite s it => exact Except.noConfusion h2
    · rw [ratioU_eq_wrap A B subs hA] at h1
      rw [ratioU_eq_wrap B A subs hB] at h2
      cases hE1 : (do
          let q ← divU A B
          dimensionless_constant subs q) with
      | error e => rw [hE1] at h1; cases e <;> exact Except.noConfusion h1
      | ok c1 =>
      cases hE2 : (do
          let q ← divU B A
          dimensionless_constant subs q) with
      | error e => rw [hE2] at h2; cases e <;> exact Except.noConfusion h2
      | ok c2 =>
      rw [hE1] at h1
      rw [hE2] at h2
      have hc1 : c1 = r1 := Except.ok.inj h1
      have hc2 : c2 = r2 := Except.ok.inj h2
      rw [← hc1, ← hc2]
      obtain ⟨q1, hq1, hd1⟩ := except_bind_ok hE1
      obtain ⟨q2, hq2, hd2⟩ := except_bind_ok hE2
      rw [divU_eq hA hB] at hq1
      rw [divU_eq hB hA] at hq2
      obtain ⟨m1, k1, a1, hX1, rfl⟩ := simplifyU_composite_ok hq1
      obtain ⟨m2, k2, a2, hX2, rfl⟩ := simplifyU_composite_ok hq2
      obtain ⟨xs1, xit1, hirr1, hdc1⟩ := dc_ok_inversion hd1
      obtain ⟨xs2, xit2, hirr2, hdc2⟩ := dc_ok_inversion hd2
      obtain ⟨n1, kk1, aa1, hT1, hxs1, hxit1⟩ := irrepC_ok hirr1
      obtain ⟨n2, kk2, aa2, hT2, hxs2, hxit2⟩ := irrepC_ok hirr2
      have hneg0 : negItems [(A, (1 : ℚ)), (B, -1)] = [(A, -1), (B, 1)] := by
        simp [negItems]
      have perm0 : List.Perm [(B, (1 : ℚ)), (A, -1)] (negItems [(A, (1 : ℚ)), (B, -1)]) := by
        rw [hneg0]
        exact List.Perm.swap _ _ _
      obtain ⟨hm12, hperm1⟩ := expandItems_neg_perm perm0 hX1 hX2
      have hg1 : List.Perm (gatherC (k2 ++ a2)) (negItems (gatherC (k1 ++ a1))) :=
        gatherC_neg_perm hperm1
      obtain ⟨hn12, hperm2⟩ := expandItems_neg_perm hg1 hT1 hT2
      have hg2 : List.Perm (gatherC (kk2 ++ aa2)) (negItems (gatherC (kk1 ++ aa1))) :=
        gatherC_neg_perm hperm2
      rw [hxit1] at hdc1
      rw [hxit2] at hdc2
      have hdc2' : dcFold subs xs2 (negItems (gatherC (kk1 ++ aa1))) = .ok c2 :=
        dcFold_perm_ok hg2 hdc2
      calc c1 * c2 = xs1 * xs2 := dcFold_neg hdc1 hdc2'
        _ = (m1 * m2) * (n1 * n2) := by rw [hxs1, hxs2]; ring
        _ = 1 := by rw [hm12, hn12]; norm_num

theorem c4_witness : (1000 : ℚ) * (mkRat 1 1000) = 1 :=
  c4_ratio_antisymm u_km u_m noSubs 1000 (mkRat 1 1000)
    (by with_unfolding_all decide) (by with_unfolding_all decide)
